import Mathlib

/-! drone-line: the message-construction pipeline of `plugin.go`

A shallow embedding of `plugin.go` and a verification of its specification.

Modelling conventions.

* A Go `string` is modelled as a list of characters (`GoString`).  Go strings are byte
  sequences; the model covers strings holding valid UTF-8, on which the byte-level
  operations used here (`strings.Split` with a non-empty separator, `strings.Trim` with
  the cutset `" "`) act exactly as the character-level ones below do.
* A Go slice is a `List`; `append(s, x)` is `s ++ [x]`; the `nil` slice and the empty
  slice are both `[]`.
* A run-time panic (index out of range) is the `none` of `Option`.
* `strings.Split`, `strings.Trim`, `strconv.Atoi` belong to the Go standard library; they
  are transcribed from its sources.  `strconv.ParseFloat`, `template.RenderTrim` and the
  LINE client (`Multicast(...).Do()`) are parameters.
* `log.Println` output is not modelled.
-/

namespace DroneLine

/-- A Go string: a sequence of characters. -/
abbrev GoString := List Char

/-! ## Standard-library primitives -/

/-- Go `strings.HasPrefix(s, prefix)`. -/
def HasPrefix : GoString → GoString → Bool
  | _, [] => true
  | [], _ :: _ => false
  | c :: cs, p :: ps => if c = p then HasPrefix cs ps else false

/-- Go `strings.Index(s, substr)`: the position of the first occurrence of `substr` in
`s`; `none` stands for Go's `-1`. -/
def Index : GoString → GoString → Option Nat
  | [], substr => if HasPrefix [] substr then some 0 else none
  | c :: cs, substr =>
    if HasPrefix (c :: cs) substr then some 0
    else
      match Index cs substr with
      | none => none
      | some i => some (i + 1)

/-- The loop of Go `strings.Count(s, substr)` for a non-empty `substr`:
`for { i := Index(s, substr); if i == -1 { return n }; n++; s = s[i+len(substr):] }`.
Each round removes at least one character of `s`, so `len(s)` rounds of fuel are enough. -/
def countLoop : Nat → GoString → GoString → Nat
  | 0, _, _ => 0
  | fuel + 1, s, substr =>
    match Index s substr with
    | none => 0
    | some i => countLoop fuel (s.drop (i + substr.length)) substr + 1

/-- Go `strings.Count(s, substr)`: the number of non-overlapping occurrences of `substr`;
for the empty `substr`, one more than the number of characters of `s`. -/
def Count (s substr : GoString) : Nat :=
  if substr.length = 0 then s.length + 1 else countLoop s.length s substr

/-- Go `strings.explode(s, -1)`: one string per character of `s`. -/
def explode (s : GoString) : List GoString :=
  s.map (fun c => [c])

/-- The loop of Go `strings.genSplit(s, sep, 0, n)`:
`for i < n { m := Index(s, sep); if m < 0 { break }; a[i] = s[:m]; s = s[m+len(sep):]; i++ }`
followed by `a[i] = s`.  The first argument is the number of rounds left, `n - i`. -/
def genSplitLoop : Nat → GoString → GoString → List GoString
  | 0, s, _ => [s]
  | n + 1, s, sep =>
    match Index s sep with
    | none => [s]
    | some m => s.take m :: genSplitLoop n (s.drop (m + sep.length)) sep

/-- Go `strings.Split(s, sep)`, that is `genSplit(s, sep, 0, -1)`: `explode` for the empty
separator, otherwise `n = Count(s, sep) + 1` slots filled by the loop, which runs while
`i < n - 1`.  (The cap `n = len(s) + 1` never applies, `Count(s, sep)` being at most
`len(s)`.) -/
def Split (s sep : GoString) : List GoString :=
  if sep.length = 0 then explode s else genSplitLoop (Count s sep) s sep

/-- Go `strings.trimLeftByte(s, c)`. -/
def trimLeftByte : GoString → Char → GoString
  | [], _ => []
  | x :: xs, c => if x = c then trimLeftByte xs c else x :: xs

/-- Go `strings.trimRightByte(s, c)`. -/
def trimRightByte (s : GoString) (c : Char) : GoString :=
  (trimLeftByte s.reverse c).reverse

/-- Go `strings.Trim(s, cutset)` for a cutset of one ASCII character:
`trimLeftByte(trimRightByte(s, cutset[0]), cutset[0])`. -/
def Trim (s : GoString) (cutset : Char) : GoString :=
  trimLeftByte (trimRightByte s cutset) cutset

/-- The width of Go's `int` (64-bit platforms). -/
def intSize : Nat := 64

/-- The value of a decimal digit, `none` for any other character
(`ch -= '0'; if ch > 9 { error }`). -/
def digitVal (c : Char) : Option Nat :=
  if '0'.toNat ≤ c.toNat ∧ c.toNat ≤ '9'.toNat then some (c.toNat - '0'.toNat) else none

/-- The digit loop of `strconv.Atoi` / `strconv.ParseUint(s, 10, _)`:
`n = n*10 + digit` over the characters, failing on the first non-digit. -/
def parseDigits : GoString → Nat → Option Nat
  | [], n => some n
  | c :: cs, n =>
    match digitVal c with
    | none => none
    | some d => parseDigits cs (n * 10 + d)

/-- Go `strconv.Atoi(s)`: an optional sign, then one or more decimal digits, the value
within the range of `int`; `none` stands for a non-nil error (syntax or range). -/
def Atoi (s : GoString) : Option Int :=
  match s with
  | [] => none
  | c :: cs =>
    let neg := decide (c = '-')
    let body := if c = '-' ∨ c = '+' then cs else c :: cs
    match body with
    | [] => none
    | _ :: _ =>
      match parseDigits body 0 with
      | none => none
      | some un =>
        if neg then
          if un > 2 ^ (intSize - 1) then none else some (-(un : Int))
        else
          if un ≥ 2 ^ (intSize - 1) then none else some (un : Int)

/-! ## `plugin.go` -/

/-- The constant `defaultPreviewImageURL`. -/
def defaultPreviewImageURL : GoString :=
  "https://cdn4.iconfinder.com/data/icons/miu/24/device-camera-recorder-video-glyph-256.png".toList

/-- The loop of `trimElement`: trim each value, `continue` on an empty one, append the
others to `newKeys`. -/
def trimElementLoop : List GoString → List GoString → List GoString
  | [], newKeys => newKeys
  | value :: rest, newKeys =>
    let value := Trim value ' '
    if value.length = 0 then trimElementLoop rest newKeys
    else trimElementLoop rest (newKeys ++ [value])

/-- Source `trimElement(keys)`. -/
def trimElement (keys : List GoString) : List GoString :=
  trimElementLoop keys []

/-- Source `convertImage(value, delimiter)`; `none` is the panic of `values[0]` on an
empty `values`. -/
def convertImage (value delimiter : GoString) : Option (List GoString) :=
  let values := trimElement (Split value delimiter)
  if values.length < 2 then
    match values[0]? with
    | none => none
    | some v0 => some (values ++ [v0])
  else some values

/-- Source `convertVideo(value, delimiter)`. -/
def convertVideo (value delimiter : GoString) : List GoString :=
  let values := trimElement (Split value delimiter)
  if values.length < 2 then values ++ [defaultPreviewImageURL] else values

/-- Source type `Audio`. -/
structure Audio where
  URL : GoString
  Duration : Int
  deriving DecidableEq

/-- The zero value `Audio{}`. -/
def Audio.zero : Audio := ⟨[], 0⟩

/-- Source `convertAudio(value, delimiter)`: the audio and the skip flag. -/
def convertAudio (value delimiter : GoString) : Audio × Bool :=
  let values := trimElement (Split value delimiter)
  if h : values.length < 2 then (Audio.zero, true)
  else
    match Atoi values[1] with
    | none => (Audio.zero, true)
    | some duration => ({ URL := values[0], Duration := duration }, false)

/-- Source `convertSticker(value, delimiter)`: the fields and the skip flag. -/
def convertSticker (value delimiter : GoString) : List GoString × Bool :=
  let values := trimElement (Split value delimiter)
  if values.length < 2 then ([], true) else (values, false)

/-- Source type `Location`; `F` is the type of `float64` values. -/
structure Location (F : Type) where
  Title : GoString
  Address : GoString
  Latitude : F
  Longitude : F
  deriving DecidableEq

/-- The zero value `Location{}`; `zeroF` is the `float64` zero. -/
def Location.zero {F : Type} (zeroF : F) : Location F := ⟨[], [], zeroF, zeroF⟩

/-- Source `convertLocation(value, delimiter)`: the location and the skip flag.
`parseFloat s` is `strconv.ParseFloat(s, 64)`, `none` standing for a non-nil error. -/
def convertLocation {F : Type} (zeroF : F) (parseFloat : GoString → Option F)
    (value delimiter : GoString) : Location F × Bool :=
  let values := trimElement (Split value delimiter)
  if h : values.length < 4 then (Location.zero zeroF, true)
  else
    match parseFloat values[2] with
    | none => (Location.zero zeroF, true)
    | some latitude =>
      match parseFloat values[3] with
      | none => (Location.zero zeroF, true)
      | some longitude =>
        ({ Title := values[0], Address := values[1],
           Latitude := latitude, Longitude := longitude }, false)

/-- The loop of `parseTo` over `trimElement(to)`, carrying `emails`, `ids` and
`attachEmail`; `none` is the panic of `idArray[0]` on an empty `idArray`. -/
def parseToLoop (authorEmail delimiter : GoString) :
    List GoString → List GoString → List GoString → Bool →
      Option (List GoString × List GoString × Bool)
  | [], emails, ids, attachEmail => some (emails, ids, attachEmail)
  | value :: rest, emails, ids, attachEmail =>
    let idArray := trimElement (Split value delimiter)
    if h : idArray.length > 1 then
      if idArray[1] ≠ authorEmail then
        parseToLoop authorEmail delimiter rest emails ids attachEmail
      else
        parseToLoop authorEmail delimiter rest (emails ++ [idArray[0]]) ids false
    else
      match idArray[0]? with
      | none => none
      | some id => parseToLoop authorEmail delimiter rest emails (ids ++ [id]) attachEmail

/-- Source `parseTo(to, authorEmail, matchEmail, delimiter)`; `none` is a panic. -/
def parseTo (to_ : List GoString) (authorEmail : GoString) (matchEmail : Bool)
    (delimiter : GoString) : Option (List GoString) :=
  match parseToLoop authorEmail delimiter (trimElement to_) [] [] true with
  | none => none
  | some (emails, ids, attachEmail) =>
    if matchEmail == true && attachEmail == false then some emails
    else some (emails.foldl (fun ids value => ids ++ [value]) ids)

/-- Source type `Repo`. -/
structure Repo where
  Owner : GoString
  Name : GoString
  deriving DecidableEq

/-- Source type `Build`; `F` is the type of `float64` values. -/
structure Build (F : Type) where
  Tag : GoString
  Event : GoString
  Number : Int
  Commit : GoString
  Branch : GoString
  Author : GoString
  Email : GoString
  Message : GoString
  Status : GoString
  Link : GoString
  Started : F
  Finished : F
  deriving DecidableEq

/-- Source type `Config`. -/
structure Config where
  ChannelToken : GoString
  ChannelSecret : GoString
  To : List GoString
  Delimiter : GoString
  Message : List GoString
  Image : List GoString
  Video : List GoString
  Audio : List GoString
  Sticker : List GoString
  Location : List GoString
  MatchEmail : Bool
  Port : Int
  deriving DecidableEq

/-- Source type `Plugin`. -/
structure Plugin (F : Type) where
  Repo : Repo
  Build : Build F
  Config : Config
  deriving DecidableEq

/-- The values of `linebot.Message` that `Exec` builds: `NewTextMessage`,
`NewImageMessage`, `NewVideoMessage`, `NewAudioMessage`, `NewStickerMessage`,
`NewLocationMessage`, each with its arguments. -/
inductive Message (F : Type) where
  | text (text : GoString)
  | image (url preview : GoString)
  | video (url preview : GoString)
  | audio (url : GoString) (duration : Int)
  | sticker (packageID stickerID : GoString)
  | location (title address : GoString) (latitude longitude : F)
  deriving DecidableEq

/-- The errors `Exec` returns: the two `errors.New` values and the error of
`template.RenderTrim`, of type `E`. -/
inductive ExecError (E : Type) where
  | missingBotConfig
  | missingUserConfig
  | render (e : E)
  deriving DecidableEq

/-- How a call of `Exec` ends: by a panic, or by returning `nil` (`none`) or an error. -/
inductive Outcome (E : Type) where
  | panic
  | returned (err : Option (ExecError E))
  deriving DecidableEq

/-- What a call of `Exec` does: how it ends, the templates it handed to
`template.RenderTrim` and the `Multicast` calls it made, both in call order. -/
structure ExecResult (F E : Type) where
  outcome : Outcome E
  rendered : List GoString
  sent : List (List GoString × List (Message F))

/-- Source `Plugin.Bot`, up to the client it builds: the error for a missing token or
secret.  `linebot.New` fails only on an empty secret or token, excluded by then. -/
def Plugin.Bot {F : Type} (E : Type) (p : Plugin F) : Except (ExecError E) Unit :=
  if p.Config.ChannelToken.length = 0 ∨ p.Config.ChannelSecret.length = 0 then
    .error .missingBotConfig
  else .ok ()

/-- Source `Plugin.Message(repo, build)`:
`fmt.Sprintf("[%s] <%s> (%s)『%s』by %s", Status, Link, Branch, Message, Author)`. -/
def Plugin.Message {F : Type} (_p : Plugin F) (_repo : DroneLine.Repo) (build : DroneLine.Build F) :
    List GoString :=
  ["[".toList ++ build.Status ++ "] <".toList ++ build.Link ++ "> (".toList ++ build.Branch
    ++ ")『".toList ++ build.Message ++ "』by ".toList ++ build.Author]

section Exec

variable {F E T : Type}

/-- The first loop of `Exec`: render each template, return on the first error, append a
text message otherwise.  The third argument collects the templates rendered. -/
def renderLoop (render : GoString → Plugin F → Except E GoString) (p : Plugin F) :
    List GoString → List (Message F) → List GoString →
      List GoString × Except E (List (Message F))
  | [], messages, rendered => (rendered, .ok messages)
  | value :: rest, messages, rendered =>
    match render value p with
    | .error err => (rendered ++ [value], .error err)
    | .ok txt => renderLoop render p rest (messages ++ [Message.text txt]) (rendered ++ [value])

/-- The image loop of `Exec`; `none` is a panic, in `convertImage` or at `values[1]`. -/
def imageLoop (delimiter : GoString) :
    List GoString → List (Message F) → Option (List (Message F))
  | [], messages => some messages
  | value :: rest, messages =>
    match convertImage value delimiter with
    | none => none
    | some values =>
      match values[0]?, values[1]? with
      | some v0, some v1 => imageLoop delimiter rest (messages ++ [Message.image v0 v1])
      | _, _ => none

/-- The video loop of `Exec`; `none` is the panic of `values[1]`. -/
def videoLoop (delimiter : GoString) :
    List GoString → List (Message F) → Option (List (Message F))
  | [], messages => some messages
  | value :: rest, messages =>
    let values := convertVideo value delimiter
    match values[0]?, values[1]? with
    | some v0, some v1 => videoLoop delimiter rest (messages ++ [Message.video v0 v1])
    | _, _ => none

/-- The audio loop of `Exec`. -/
def audioLoop (delimiter : GoString) : List GoString → List (Message F) → List (Message F)
  | [], messages => messages
  | value :: rest, messages =>
    match convertAudio value delimiter with
    | (_, true) => audioLoop delimiter rest messages
    | (audio, false) =>
      audioLoop delimiter rest (messages ++ [Message.audio audio.URL audio.Duration])

/-- The sticker loop of `Exec`; `none` is a panic at `sticker[0]` or `sticker[1]`. -/
def stickerLoop (delimiter : GoString) :
    List GoString → List (Message F) → Option (List (Message F))
  | [], messages => some messages
  | value :: rest, messages =>
    match convertSticker value delimiter with
    | (_, true) => stickerLoop delimiter rest messages
    | (sticker, false) =>
      match sticker[0]?, sticker[1]? with
      | some s0, some s1 => stickerLoop delimiter rest (messages ++ [Message.sticker s0 s1])
      | _, _ => none

/-- The location loop of `Exec`. -/
def locationLoop (zeroF : F) (parseFloat : GoString → Option F) (delimiter : GoString) :
    List GoString → List (Message F) → List (Message F)
  | [], messages => messages
  | value :: rest, messages =>
    match convertLocation zeroF parseFloat value delimiter with
    | (_, true) => locationLoop zeroF parseFloat delimiter rest messages
    | (location, false) =>
      locationLoop zeroF parseFloat delimiter rest
        (messages ++ [Message.location location.Title location.Address
          location.Latitude location.Longitude])

/-- Source `Plugin.Exec`.  The collaborators are parameters: `parseFloat` is
`strconv.ParseFloat(·, 64)` and `zeroF` the `float64` zero, `render` is
`template.RenderTrim`, and `multicast ids messages` is `bot.Multicast(ids, messages...).Do()`,
`some` standing for a non-nil error. -/
def Plugin.Exec (zeroF : F) (parseFloat : GoString → Option F)
    (render : GoString → Plugin F → Except E GoString)
    (multicast : List GoString → List (DroneLine.Message F) → Option T)
    (p : Plugin F) : ExecResult F E :=
  match p.Bot E with
  | .error err => ⟨.returned (some err), [], []⟩
  | .ok _ =>
    if p.Config.To.length = 0 then ⟨.returned (some .missingUserConfig), [], []⟩
    else
      let message :=
        if p.Config.Message.length > 0 then p.Config.Message else p.Message p.Repo p.Build
      match renderLoop render p (trimElement message) [] [] with
      | (rendered, .error err) => ⟨.returned (some (.render err)), rendered, []⟩
      | (rendered, .ok messages) =>
        match imageLoop p.Config.Delimiter (trimElement p.Config.Image) messages with
        | none => ⟨.panic, rendered, []⟩
        | some messages =>
          match videoLoop p.Config.Delimiter (trimElement p.Config.Video) messages with
          | none => ⟨.panic, rendered, []⟩
          | some messages =>
            let messages := audioLoop p.Config.Delimiter (trimElement p.Config.Audio) messages
            match stickerLoop p.Config.Delimiter (trimElement p.Config.Sticker) messages with
            | none => ⟨.panic, rendered, []⟩
            | some messages =>
              let messages := locationLoop zeroF parseFloat p.Config.Delimiter
                (trimElement p.Config.Location) messages
              match parseTo p.Config.To p.Build.Email p.Config.MatchEmail
                  p.Config.Delimiter with
              | none => ⟨.panic, rendered, []⟩
              | some ids =>
                match multicast ids messages with
                | some _ => ⟨.returned none, rendered, [(ids, messages)]⟩
                | none => ⟨.returned none, rendered, [(ids, messages)]⟩

end Exec

/-! ## Specification-side definitions -/

/-- The identifiers of the entries with exactly one normalized field, in input order. -/
def plainIds (delimiter : GoString) (entries : List GoString) : List GoString :=
  entries.filterMap fun value =>
    match trimElement (Split value delimiter) with
    | [id] => some id
    | _ => none

/-- The identifiers of the entries with two or more normalized fields whose second field
is exactly `authorEmail`, in input order. -/
def matchedIds (authorEmail delimiter : GoString) (entries : List GoString) :
    List GoString :=
  entries.filterMap fun value =>
    match trimElement (Split value delimiter) with
    | id :: email :: _ => if email = authorEmail then some id else none
    | _ => none

/-- The number written by a string of decimal digits, most significant digit first. -/
def decimalValue (digits : GoString) : Nat :=
  Nat.ofDigits 10 (digits.reverse.map fun c => c.toNat - '0'.toNat)

/-- The string `s` is a valid base-10 integer literal denoting `n`: an optional sign
followed by one or more decimal digits, the value within the range of `int`. -/
def IsIntLiteral (s : GoString) (n : Int) : Prop :=
  ∃ sign digits : GoString,
    s = sign ++ digits ∧ (sign = [] ∨ sign = ['+'] ∨ sign = ['-']) ∧
    digits ≠ [] ∧ (∀ c ∈ digits, c ∈ "0123456789".toList) ∧
    n = (if sign = ['-'] then -(decimalValue digits : Int) else (decimalValue digits : Int)) ∧
    -(2 : Int) ^ (intSize - 1) ≤ n ∧ n < (2 : Int) ^ (intSize - 1)

/-! ## Concrete inputs -/

/-- A recipient list whose only entry carries the email of another author. -/
def otherAuthorTo : List GoString := ["u1:b@x.com".toList]

/-- A build authored by `a@x.com`. -/
def sampleBuild : Build Unit :=
  { Tag := [], Event := "push".toList, Number := 1, Commit := "c0ffee".toList,
    Branch := "master".toList, Author := "a".toList, Email := "a@x.com".toList,
    Message := "fix".toList, Status := "success".toList, Link := "http://ci/1".toList,
    Started := (), Finished := () }

/-- A plugin with both credentials and the given recipient, image and video lists and
delimiter; the other lists are empty and `MatchEmail` is off. -/
def samplePlugin (to_ image video : List GoString) (delimiter : GoString) : Plugin Unit :=
  { Repo := { Owner := "o".toList, Name := "r".toList },
    Build := sampleBuild,
    Config :=
      { ChannelToken := "token".toList, ChannelSecret := "secret".toList, To := to_,
        Delimiter := delimiter, Message := [], Image := image, Video := video, Audio := [],
        Sticker := [], Location := [], MatchEmail := false, Port := 0 } }

/-- A renderer that returns the template unchanged. -/
def renderSame : GoString → Plugin Unit → Except Unit GoString := fun value _ => .ok value

/-- A transport that always succeeds. -/
def multicastOk : List GoString → List (Message Unit) → Option Unit := fun _ _ => none

/-- A float parser that accepts nothing. -/
def parseFloatNone : GoString → Option Unit := fun _ => none

/-- A stand-in for `strconv.ParseFloat` that accepts the two literals `1.5` and `2.5` and
returns them as they are written. -/
def parseFloatSample (s : GoString) : Option GoString :=
  if s = "1.5".toList ∨ s = "2.5".toList then some s else none

/-- `Exec` on the sample collaborators. -/
def sampleExec (p : Plugin Unit) : ExecResult Unit Unit :=
  p.Exec () parseFloatNone renderSame multicastOk

/-! ## Specification-side definitions for normalization, splitting and assembly -/

/-- The string without its leading and its trailing spaces. -/
def stripSpaces (s : GoString) : GoString :=
  (s.dropWhile fun c => c == ' ').rdropWhile fun c => c == ' '

/-- A field with its padding: the number of spaces before it, the field, and the number of
spaces after it. -/
def padField (x : Nat × GoString × Nat) : GoString :=
  List.replicate x.1 ' ' ++ x.2.1 ++ List.replicate x.2.2 ' '

/-- The text of `entry` that precedes the first occurrence of `delimiter`, the whole entry
when the delimiter does not occur. -/
def textBeforeDelimiter (entry delimiter : GoString) : GoString :=
  match Index entry delimiter with
  | none => entry
  | some m => entry.take m

/-- The fixed default message `[<status>] <<link>> (<branch>)『<message>』by <author>`
filled from the build. -/
def defaultMessage {F : Type} (build : Build F) : GoString :=
  "[".toList ++ build.Status ++ "] <".toList ++ build.Link ++ "> (".toList ++ build.Branch
    ++ ")『".toList ++ build.Message ++ "』by ".toList ++ build.Author

/-- The normalized message templates of a plugin: the configured ones, or the default
message when none is configured. -/
def messageTemplates {F : Type} (p : Plugin F) : List GoString :=
  trimElement (if p.Config.Message.length > 0 then p.Config.Message
    else p.Message p.Repo p.Build)

/-- The error of the first template on which the renderer fails, if any. -/
def firstRenderError {F E : Type} (render : GoString → Plugin F → Except E GoString)
    (p : Plugin F) (templates : List GoString) : Option E :=
  templates.findSome? fun value =>
    match render value p with
    | .error err => some err
    | .ok _ => none

/-- The text message of a template, when the renderer accepts it. -/
def textEntry {F E : Type} (render : GoString → Plugin F → Except E GoString)
    (p : Plugin F) (value : GoString) : Option (Message F) :=
  match render value p with
  | .error _ => none
  | .ok txt => some (Message.text txt)

/-- The image message of an entry: the first two elements `convertImage` returns. -/
def imageEntry {F : Type} (delimiter value : GoString) : Option (Message F) :=
  match convertImage value delimiter with
  | some (url :: preview :: _) => some (Message.image url preview)
  | _ => none

/-- The video message of an entry: the first two elements `convertVideo` returns. -/
def videoEntry {F : Type} (delimiter value : GoString) : Option (Message F) :=
  match convertVideo value delimiter with
  | url :: preview :: _ => some (Message.video url preview)
  | _ => none

/-- The audio message of an entry that `convertAudio` does not skip. -/
def audioEntry {F : Type} (delimiter value : GoString) : Option (Message F) :=
  match convertAudio value delimiter with
  | (_, true) => none
  | (audio, false) => some (Message.audio audio.URL audio.Duration)

/-- The sticker message of an entry that `convertSticker` does not skip. -/
def stickerEntry {F : Type} (delimiter value : GoString) : Option (Message F) :=
  match convertSticker value delimiter with
  | (packageID :: stickerID :: _, false) => some (Message.sticker packageID stickerID)
  | _ => none

/-- The location message of an entry that `convertLocation` does not skip. -/
def locationEntry {F : Type} (zeroF : F) (parseFloat : GoString → Option F)
    (delimiter value : GoString) : Option (Message F) :=
  match convertLocation zeroF parseFloat value delimiter with
  | (_, true) => none
  | (location, false) =>
    some (Message.location location.Title location.Address location.Latitude
      location.Longitude)

/-- The message sequence in the order text, image, video, audio, sticker, location, each
group in configuration order. -/
def assembledMessages {F E : Type} (zeroF : F) (parseFloat : GoString → Option F)
    (render : GoString → Plugin F → Except E GoString) (p : Plugin F) : List (Message F) :=
  (messageTemplates p).filterMap (textEntry render p)
    ++ (trimElement p.Config.Image).filterMap (imageEntry p.Config.Delimiter)
    ++ (trimElement p.Config.Video).filterMap (videoEntry p.Config.Delimiter)
    ++ (trimElement p.Config.Audio).filterMap (audioEntry p.Config.Delimiter)
    ++ (trimElement p.Config.Sticker).filterMap (stickerEntry p.Config.Delimiter)
    ++ (trimElement p.Config.Location).filterMap
        (locationEntry zeroF parseFloat p.Config.Delimiter)

/-- A renderer that fails on every template. -/
def renderFail : GoString → Plugin Unit → Except Unit GoString := fun _ _ => .error ()

/-- A plugin with one entry or more in every list, some of them skipped by their
converter, and the delimiter `","`. -/
def fullPlugin : Plugin GoString :=
  { Repo := { Owner := "o".toList, Name := "r".toList },
    Build :=
      { Tag := [], Event := "push".toList, Number := 1, Commit := "c0ffee".toList,
        Branch := "master".toList, Author := "a".toList, Email := "a@x.com".toList,
        Message := "fix".toList, Status := "success".toList, Link := "http://ci/1".toList,
        Started := "0".toList, Finished := "0".toList },
    Config :=
      { ChannelToken := "token".toList, ChannelSecret := "secret".toList,
        To := ["u1".toList], Delimiter := ",".toList,
        Message := ["hello".toList, " ".toList], Image := ["i1".toList],
        Video := ["v1,p1".toList], Audio := ["a,5".toList, "bad".toList],
        Sticker := ["1,2".toList, "x".toList], Location := ["T,A,1.5,2.5".toList],
        MatchEmail := false, Port := 0 } }

/-- Whether a message is a text message. -/
def Message.isText {F : Type} : Message F → Bool
  | .text _ => true
  | _ => false

/-! ## Lemmas on the loops -/

theorem trimElementLoop_eq (keys newKeys : List GoString) :
    trimElementLoop keys newKeys
      = newKeys ++ (keys.map fun v => Trim v ' ').filter fun v => decide (v ≠ []) := by
  induction keys generalizing newKeys with
  | nil => simp [trimElementLoop]
  | cons value rest ih =>
    by_cases hv : Trim value ' ' = []
    · simp [trimElementLoop, hv, ih]
    · simp [trimElementLoop, hv, ih, List.filter_cons]

theorem trimElement_eq (keys : List GoString) :
    trimElement keys = (keys.map fun v => Trim v ' ').filter fun v => decide (v ≠ []) := by
  simp [trimElement, trimElementLoop_eq]

theorem foldl_append_singleton (emails ids : List GoString) :
    emails.foldl (fun ids value => ids ++ [value]) ids = ids ++ emails := by
  induction emails generalizing ids with
  | nil => simp
  | cons e es ih => simp [ih]

theorem parseToLoop_nil_fields (authorEmail delimiter value : GoString)
    (rest emails ids : List GoString) (attachEmail : Bool)
    (hfs : trimElement (Split value delimiter) = []) :
    parseToLoop authorEmail delimiter (value :: rest) emails ids attachEmail = none := by
  simp [parseToLoop, hfs]

theorem parseToLoop_one_field (authorEmail delimiter value id : GoString)
    (rest emails ids : List GoString) (attachEmail : Bool)
    (hfs : trimElement (Split value delimiter) = [id]) :
    parseToLoop authorEmail delimiter (value :: rest) emails ids attachEmail
      = parseToLoop authorEmail delimiter rest emails (ids ++ [id]) attachEmail := by
  simp [parseToLoop, hfs]

theorem parseToLoop_other_email (authorEmail delimiter value id email : GoString)
    (more rest emails ids : List GoString) (attachEmail : Bool)
    (hfs : trimElement (Split value delimiter) = id :: email :: more)
    (hne : email ≠ authorEmail) :
    parseToLoop authorEmail delimiter (value :: rest) emails ids attachEmail
      = parseToLoop authorEmail delimiter rest emails ids attachEmail := by
  simp [parseToLoop, hfs, hne]

theorem parseToLoop_author_email (authorEmail delimiter value id : GoString)
    (more rest emails ids : List GoString) (attachEmail : Bool)
    (hfs : trimElement (Split value delimiter) = id :: authorEmail :: more) :
    parseToLoop authorEmail delimiter (value :: rest) emails ids attachEmail
      = parseToLoop authorEmail delimiter rest (emails ++ [id]) ids false := by
  simp [parseToLoop, hfs]

/-- The loop of `parseTo` on entries that all have a normalized field: it collects the
matched identifiers in `emails`, the plain ones in `ids`, and clears `attachEmail` exactly
when there is a match. -/
theorem parseToLoop_eq (authorEmail delimiter : GoString) (entries : List GoString)
    (hf : ∀ v ∈ entries, trimElement (Split v delimiter) ≠ [])
    (emails ids : List GoString) (attachEmail : Bool) :
    parseToLoop authorEmail delimiter entries emails ids attachEmail
      = some (emails ++ matchedIds authorEmail delimiter entries,
              ids ++ plainIds delimiter entries,
              attachEmail && (matchedIds authorEmail delimiter entries).isEmpty) := by
  induction entries generalizing emails ids attachEmail with
  | nil => simp [parseToLoop, plainIds, matchedIds]
  | cons value rest ih =>
    have hrest : ∀ v ∈ rest, trimElement (Split v delimiter) ≠ [] :=
      fun v hv => hf v (List.mem_cons_of_mem _ hv)
    have hval := hf value (List.mem_cons_self _ _)
    match hfs : trimElement (Split value delimiter) with
    | [] => exact absurd hfs hval
    | [id] =>
      rw [parseToLoop_one_field _ _ _ id _ _ _ _ hfs, ih hrest]
      simp [plainIds, matchedIds, List.filterMap_cons, hfs]
    | id :: email :: more =>
      by_cases he : email = authorEmail
      · subst he
        rw [parseToLoop_author_email _ _ _ id more _ _ _ _ hfs, ih hrest]
        simp [plainIds, matchedIds, List.filterMap_cons, hfs]
      · rw [parseToLoop_other_email _ _ _ id email more _ _ _ _ hfs he, ih hrest]
        simp [plainIds, matchedIds, List.filterMap_cons, hfs, he]

theorem mem_plainIds (delimiter id : GoString) (entries : List GoString) :
    id ∈ plainIds delimiter entries
      ↔ ∃ v ∈ entries, trimElement (Split v delimiter) = [id] := by
  unfold plainIds
  rw [List.mem_filterMap]
  constructor
  · rintro ⟨v, hv, h⟩
    refine ⟨v, hv, ?_⟩
    split at h <;> simp_all
  · rintro ⟨v, hv, h⟩
    exact ⟨v, hv, by simp [h]⟩

theorem mem_matchedIds (authorEmail delimiter id : GoString) (entries : List GoString) :
    id ∈ matchedIds authorEmail delimiter entries
      ↔ ∃ v ∈ entries, ∃ more,
          trimElement (Split v delimiter) = id :: authorEmail :: more := by
  unfold matchedIds
  rw [List.mem_filterMap]
  constructor
  · rintro ⟨v, hv, h⟩
    refine ⟨v, hv, ?_⟩
    split at h
    · rename_i id0 email more hfs
      by_cases he : email = authorEmail
      · simp [he] at h
        exact ⟨more, by simp [hfs, he, h]⟩
      · simp [he] at h
    · simp at h
  · rintro ⟨v, hv, more, h⟩
    exact ⟨v, hv, by simp [h]⟩

/-- The result of `parseTo` on entries that all have a normalized field. -/
theorem parseTo_eq (to_ : List GoString) (authorEmail : GoString) (matchEmail : Bool)
    (delimiter : GoString)
    (hf : ∀ v ∈ trimElement to_, trimElement (Split v delimiter) ≠ []) :
    parseTo to_ authorEmail matchEmail delimiter
      = some (if matchEmail = true ∧ matchedIds authorEmail delimiter (trimElement to_) ≠ []
          then matchedIds authorEmail delimiter (trimElement to_)
          else plainIds delimiter (trimElement to_)
            ++ matchedIds authorEmail delimiter (trimElement to_)) := by
  unfold parseTo
  rw [parseToLoop_eq authorEmail delimiter _ hf]
  cases matchEmail <;>
    cases hm : matchedIds authorEmail delimiter (trimElement to_) <;>
    simp [foldl_append_singleton]

/-! ## `strconv.Atoi` accepts exactly the integer literals -/

theorem digitVal_eq_some_iff (c : Char) (d : Nat) :
    digitVal c = some d ↔ c ∈ "0123456789".toList ∧ d = c.toNat - '0'.toNat := by
  constructor
  · intro h
    unfold digitVal at h
    split at h
    · rename_i hr
      obtain ⟨h0, h9⟩ := hr
      have hd : d = c.toNat - '0'.toNat := by simpa using h.symm
      refine ⟨?_, hd⟩
      have hc : c = Char.ofNat c.toNat := (Char.ofNat_toNat c).symm
      generalize c.toNat = n at hc h0 h9
      have h0' : 48 ≤ n := h0
      have h9' : n ≤ 57 := h9
      subst hc
      interval_cases n <;> decide
    · simp at h
  · rintro ⟨hc, hd⟩
    subst hd
    simp only [String.toList, List.mem_cons, List.mem_singleton, List.not_mem_nil, or_false]
      at hc
    rcases hc with h | h | h | h | h | h | h | h | h | h <;> subst h <;> decide

theorem digitVal_eq_none_iff (c : Char) :
    digitVal c = none ↔ c ∉ "0123456789".toList := by
  constructor
  · intro h hc
    have := (digitVal_eq_some_iff c (c.toNat - '0'.toNat)).2 ⟨hc, rfl⟩
    rw [h] at this
    cases this
  · intro h
    cases hd : digitVal c with
    | none => rfl
    | some d => exact absurd ((digitVal_eq_some_iff c d).1 hd).1 h

theorem decimalValue_cons (c : Char) (cs : GoString) :
    decimalValue (c :: cs) = (c.toNat - '0'.toNat) * 10 ^ cs.length + decimalValue cs := by
  simp [decimalValue, Nat.ofDigits_append, Nat.ofDigits_singleton]
  ring

theorem parseDigits_of_digits (cs : GoString) (n : Nat)
    (h : ∀ c ∈ cs, c ∈ "0123456789".toList) :
    parseDigits cs n = some (n * 10 ^ cs.length + decimalValue cs) := by
  induction cs generalizing n with
  | nil => simp [parseDigits, decimalValue]
  | cons c cs ih =>
    have hc := (digitVal_eq_some_iff c _).2 ⟨h c (List.mem_cons_self _ _), rfl⟩
    rw [parseDigits, hc]
    simp only
    rw [ih _ (fun x hx => h x (List.mem_cons_of_mem _ hx)), decimalValue_cons]
    congr 1
    simp only [List.length_cons]
    ring

theorem digits_of_parseDigits (cs : GoString) (n m : Nat) (h : parseDigits cs n = some m) :
    ∀ c ∈ cs, c ∈ "0123456789".toList := by
  induction cs generalizing n with
  | nil => simp
  | cons c cs ih =>
    rw [parseDigits] at h
    cases hd : digitVal c with
    | none => simp [hd] at h
    | some d =>
      simp only [hd] at h
      intro x hx
      rcases List.mem_cons.1 hx with rfl | hx
      · exact ((digitVal_eq_some_iff _ d).1 hd).1
      · exact ih _ h x hx

theorem parseDigits_zero_eq_some_iff (cs : GoString) (m : Nat) :
    parseDigits cs 0 = some m ↔
      (∀ c ∈ cs, c ∈ "0123456789".toList) ∧ m = decimalValue cs := by
  constructor
  · intro h
    have hd := digits_of_parseDigits cs 0 m h
    rw [parseDigits_of_digits cs 0 hd] at h
    exact ⟨hd, by simpa using h.symm⟩
  · rintro ⟨hd, rfl⟩
    simp [parseDigits_of_digits cs 0 hd]

theorem digit_ne_sign (c : Char) (h : c ∈ "0123456789".toList) : c ≠ '-' ∧ c ≠ '+' := by
  constructor <;> (intro hc; subst hc; revert h; decide)

theorem Atoi_minus (cs : GoString) :
    Atoi ('-' :: cs) =
      match cs with
      | [] => none
      | _ :: _ =>
        match parseDigits cs 0 with
        | none => none
        | some un => if un > 2 ^ (intSize - 1) then none else some (-(un : Int)) := by
  cases cs <;> simp [Atoi]

theorem Atoi_plus (cs : GoString) :
    Atoi ('+' :: cs) =
      match cs with
      | [] => none
      | _ :: _ =>
        match parseDigits cs 0 with
        | none => none
        | some un => if un ≥ 2 ^ (intSize - 1) then none else some (un : Int) := by
  cases cs <;> simp [Atoi]

theorem Atoi_unsigned (c : Char) (cs : GoString) (hm : c ≠ '-') (hp : c ≠ '+') :
    Atoi (c :: cs) =
      match parseDigits (c :: cs) 0 with
      | none => none
      | some un => if un ≥ 2 ^ (intSize - 1) then none else some (un : Int) := by
  simp [Atoi, hm, hp]

/-- The transcription of `strconv.Atoi` accepts exactly the integer literals, with their
value. -/
theorem Atoi_eq_some_iff (s : GoString) (n : Int) : Atoi s = some n ↔ IsIntLiteral s n := by
  have hpow : ((2 ^ (intSize - 1) : Nat) : Int) = (2 : Int) ^ (intSize - 1) := by push_cast; rfl
  have hpos : 0 < 2 ^ (intSize - 1) := by positivity
  constructor
  · intro h
    match s with
    | [] => simp [Atoi] at h
    | c :: cs =>
      by_cases hm : c = '-'
      · subst hm
        rw [Atoi_minus] at h
        match cs with
        | [] => simp at h
        | x :: xs =>
          simp only at h
          cases hpd : parseDigits (x :: xs) 0 with
          | none => simp [hpd] at h
          | some un =>
            simp only [hpd] at h
            obtain ⟨hd, hv⟩ := (parseDigits_zero_eq_some_iff _ _).1 hpd
            split at h
            · simp at h
            · rename_i hle
              have hn : n = -(un : Int) := by simpa using h.symm
              refine ⟨['-'], x :: xs, rfl, Or.inr (Or.inr rfl), by simp, hd, ?_, ?_, ?_⟩
              · simp [hn, hv]
              · rw [hn, ← hpow]; omega
              · rw [hn, ← hpow]; omega
      · by_cases hp : c = '+'
        · subst hp
          rw [Atoi_plus] at h
          match cs with
          | [] => simp at h
          | x :: xs =>
            simp only at h
            cases hpd : parseDigits (x :: xs) 0 with
            | none => simp [hpd] at h
            | some un =>
              simp only [hpd] at h
              obtain ⟨hd, hv⟩ := (parseDigits_zero_eq_some_iff _ _).1 hpd
              split at h
              · simp at h
              · rename_i hlt
                have hn : n = (un : Int) := by simpa using h.symm
                refine ⟨['+'], x :: xs, rfl, Or.inr (Or.inl rfl), by simp, hd, ?_, ?_, ?_⟩
                · simp [hn, hv]
                · rw [hn, ← hpow]; omega
                · rw [hn, ← hpow]; omega
        · rw [Atoi_unsigned c cs hm hp] at h
          cases hpd : parseDigits (c :: cs) 0 with
          | none => simp [hpd] at h
          | some un =>
            simp only [hpd] at h
            obtain ⟨hd, hv⟩ := (parseDigits_zero_eq_some_iff _ _).1 hpd
            split at h
            · simp at h
            · rename_i hlt
              have hn : n = (un : Int) := by simpa using h.symm
              refine ⟨[], c :: cs, rfl, Or.inl rfl, by simp, hd, ?_, ?_, ?_⟩
              · simp [hn, hv]
              · rw [hn, ← hpow]; omega
              · rw [hn, ← hpow]; omega
  · rintro ⟨sign, digits, hs, hsign, hne, hd, hn, hlo, hhi⟩
    have hpd := (parseDigits_zero_eq_some_iff digits (decimalValue digits)).2 ⟨hd, rfl⟩
    match digits, hne with
    | x :: xs, _ =>
      rcases hsign with rfl | rfl | rfl
      · obtain ⟨hm, hp⟩ := digit_ne_sign x (hd x (List.mem_cons_self _ _))
        simp only [List.nil_append] at hs
        subst hs
        rw [Atoi_unsigned x xs hm hp, hpd]
        simp only [List.nil_eq, reduceCtorEq, if_false] at hn
        have : ¬ decimalValue (x :: xs) ≥ 2 ^ (intSize - 1) := by
          rw [hn, ← hpow] at hhi; omega
        simp [this, hn]
      · subst hs
        simp only [List.singleton_append]
        rw [Atoi_plus]
        simp only [hpd]
        have hn' : n = (decimalValue (x :: xs) : Int) := by
          rw [hn]; rw [if_neg (by decide)]
        have : ¬ decimalValue (x :: xs) ≥ 2 ^ (intSize - 1) := by
          rw [hn', ← hpow] at hhi; omega
        simp [this, hn']
      · subst hs
        simp only [List.singleton_append]
        rw [Atoi_minus]
        simp only [hpd]
        have hn' : n = -(decimalValue (x :: xs) : Int) := by
          rw [hn]; rw [if_pos rfl]
        have : ¬ decimalValue (x :: xs) > 2 ^ (intSize - 1) := by
          rw [hn', ← hpow] at hlo; omega
        simp [this, hn']

/-! ## Recipient resolution -/

/-- C1: for a non-empty delimiter and a recipient list whose entries surviving
`trimElement` all have a normalized field, `parseTo` returns the matched identifiers when
`matchEmail` is set and there is a match, and the plain identifiers followed by the matched
ones otherwise. -/
theorem parseTo_selection (to_ : List GoString) (authorEmail : GoString) (matchEmail : Bool)
    (delimiter : GoString) (_hd : delimiter ≠ [])
    (hf : ∀ v ∈ trimElement to_, trimElement (Split v delimiter) ≠ []) :
    parseTo to_ authorEmail matchEmail delimiter
      = some (if matchEmail = true ∧ matchedIds authorEmail delimiter (trimElement to_) ≠ []
          then matchedIds authorEmail delimiter (trimElement to_)
          else plainIds delimiter (trimElement to_)
            ++ matchedIds authorEmail delimiter (trimElement to_)) :=
  parseTo_eq to_ authorEmail matchEmail delimiter hf

theorem parseTo_selection_witness :
    parseTo ["u1".toList, "u2:a@x.com".toList] "a@x.com".toList true ":".toList
        = some ["u2".toList]
      ∧ parseTo ["u1".toList, "u2:a@x.com".toList] "a@x.com".toList false ":".toList
        = some ["u1".toList, "u2".toList] :=
  ⟨(parseTo_selection _ _ _ _ (by decide) (by decide)).trans (by decide),
   (parseTo_selection _ _ _ _ (by decide) (by decide)).trans (by decide)⟩

/-- C2, refuted as stated: with `matchEmail = false` the identifier `u1` of the entry
`u1:b@x.com` is missing from the result for the author `a@x.com`. -/
theorem parseTo_matchEmail_false_misses_identifier :
    ¬ (∀ v ∈ trimElement otherAuthorTo, ∀ id more,
        trimElement (Split v ":".toList) = id :: more →
          ∃ r, parseTo otherAuthorTo "a@x.com".toList false ":".toList = some r ∧ id ∈ r) := by
  intro h
  obtain ⟨r, hr, hmem⟩ :=
    h "u1:b@x.com".toList (by decide) "u1".toList ["b@x.com".toList] (by decide)
  have he : parseTo otherAuthorTo "a@x.com".toList false ":".toList = some [] := by decide
  rw [he] at hr
  cases hr
  simp at hmem

/-- C2, amended: for a non-empty delimiter and entries that all have a normalized field,
`parseTo` with `matchEmail = false` returns the identifiers of exactly the entries that
have one normalized field or whose second field is `authorEmail`; an entry whose second
field is another email contributes nothing. -/
theorem parseTo_matchEmail_false (to_ : List GoString) (authorEmail delimiter : GoString)
    (_hd : delimiter ≠ [])
    (hf : ∀ v ∈ trimElement to_, trimElement (Split v delimiter) ≠ []) :
    ∃ r, parseTo to_ authorEmail false delimiter = some r ∧
      ∀ id, id ∈ r ↔ ∃ v ∈ trimElement to_,
        trimElement (Split v delimiter) = [id]
          ∨ ∃ more, trimElement (Split v delimiter) = id :: authorEmail :: more := by
  refine ⟨_, parseTo_eq to_ authorEmail false delimiter hf, ?_⟩
  intro id
  simp only [Bool.false_eq_true, false_and, if_false, List.mem_append, mem_plainIds,
    mem_matchedIds]
  constructor
  · rintro (⟨v, hv, h⟩ | ⟨v, hv, h⟩)
    · exact ⟨v, hv, Or.inl h⟩
    · exact ⟨v, hv, Or.inr h⟩
  · rintro ⟨v, hv, h | h⟩
    · exact Or.inl ⟨v, hv, h⟩
    · exact Or.inr ⟨v, hv, h⟩

theorem parseTo_matchEmail_false_witness :
    ":".toList ≠ [] ∧
    (∀ v ∈ trimElement otherAuthorTo, trimElement (Split v ":".toList) ≠ []) ∧
    ∃ r, parseTo otherAuthorTo "a@x.com".toList false ":".toList = some r ∧
      ∀ id, id ∈ r ↔ ∃ v ∈ trimElement otherAuthorTo,
        trimElement (Split v ":".toList) = [id]
          ∨ ∃ more, trimElement (Split v ":".toList) = id :: "a@x.com".toList :: more :=
  ⟨by decide, by decide,
    parseTo_matchEmail_false otherAuthorTo "a@x.com".toList ":".toList (by decide) (by decide)⟩

theorem parseTo_nil (authorEmail : GoString) (matchEmail : Bool) (delimiter : GoString) :
    parseTo [] authorEmail matchEmail delimiter = some [] := by
  cases matchEmail <;> rfl

/-- C3, refuted as stated: the recipient list `["u1:b@x.com"]` is not empty and none of
its entries carries the email of the author `a@x.com`, yet `parseTo` with
`matchEmail = true` returns the empty list: the result is not non-empty, and an empty
result does not mean an empty `to`. -/
theorem parseTo_empty_on_nonempty_to :
    ¬ (otherAuthorTo ≠ [] → ":".toList ≠ [] →
        matchedIds "a@x.com".toList ":".toList (trimElement otherAuthorTo) = [] →
        ∃ r, parseTo otherAuthorTo "a@x.com".toList true ":".toList = some r ∧ r ≠ [])
      ∧ ¬ (parseTo otherAuthorTo "a@x.com".toList true ":".toList = some [] →
        otherAuthorTo = []) := by
  have he : parseTo otherAuthorTo "a@x.com".toList true ":".toList = some [] := by decide
  constructor
  · intro h
    obtain ⟨r, hr, hne⟩ := h (by decide) (by decide) (by decide)
    rw [he] at hr
    cases hr
    exact hne rfl
  · intro h
    exact absurd (h he) (by decide)

/-- C3, amended: for a non-empty delimiter and entries that all have a normalized field,
when `matchEmail` is set and no entry carries `authorEmail`, `parseTo` returns the
identifiers of the entries with exactly one normalized field; and `parseTo` returns the
empty list exactly when no entry has exactly one normalized field and no entry carries
`authorEmail`, as is the case for the empty recipient list. -/
theorem parseTo_fallback (to_ : List GoString) (authorEmail delimiter : GoString)
    (_hd : delimiter ≠ [])
    (hf : ∀ v ∈ trimElement to_, trimElement (Split v delimiter) ≠ []) :
    (matchedIds authorEmail delimiter (trimElement to_) = [] →
        parseTo to_ authorEmail true delimiter = some (plainIds delimiter (trimElement to_)))
      ∧ (∀ matchEmail, parseTo to_ authorEmail matchEmail delimiter = some [] ↔
          plainIds delimiter (trimElement to_) = []
            ∧ matchedIds authorEmail delimiter (trimElement to_) = [])
      ∧ (to_ = [] → ∀ matchEmail, parseTo to_ authorEmail matchEmail delimiter = some []) := by
  refine ⟨?_, ?_, ?_⟩
  · intro hm
    rw [parseTo_eq to_ authorEmail true delimiter hf, hm]
    simp
  · intro matchEmail
    rw [parseTo_eq to_ authorEmail matchEmail delimiter hf]
    by_cases hm : matchedIds authorEmail delimiter (trimElement to_) = []
    · simp [hm]
    · cases matchEmail <;> simp [hm]
  · intro hto matchEmail
    subst hto
    cases matchEmail <;> rfl

theorem parseTo_fallback_witness :
    ":".toList ≠ [] ∧
    (∀ v ∈ trimElement ["u1".toList, "u3:b@x.com".toList],
        trimElement (Split v ":".toList) ≠ []) ∧
    parseTo ["u1".toList, "u3:b@x.com".toList] "a@x.com".toList true ":".toList
      = some ["u1".toList] :=
  ⟨by decide, by decide,
    ((parseTo_fallback ["u1".toList, "u3:b@x.com".toList] "a@x.com".toList ":".toList
      (by decide) (by decide)).1 (by decide)).trans (by decide)⟩

/-! ## The recipient check of `Exec` -/

/-- With a non-empty `Config.To`, `Exec` never ends with the missing-recipient error. -/
theorem Exec_outcome_ne_missingUserConfig {F E T : Type} (zeroF : F)
    (parseFloat : GoString → Option F) (render : GoString → Plugin F → Except E GoString)
    (multicast : List GoString → List (Message F) → Option T) (p : Plugin F)
    (hto : p.Config.To ≠ []) :
    (p.Exec zeroF parseFloat render multicast).outcome
      ≠ .returned (some .missingUserConfig) := by
  have hlen : ¬ p.Config.To.length = 0 := by simpa using hto
  unfold Plugin.Exec
  cases hb : p.Bot E with
  | error err =>
    have herr : err = .missingBotConfig := by
      unfold Plugin.Bot at hb
      split at hb <;> simp_all
    simp [herr]
  | ok u =>
    simp only [hlen, if_false]
    repeat' split
    all_goals simp_all

/-- C4, refuted as stated: for the recipient list `["u1:b@x.com"]` and the author
`a@x.com` the resolved recipient list is empty, yet `Exec` returns `nil` after one
`Multicast` call with no recipient, instead of the missing-recipient error. -/
theorem Exec_sends_to_empty_recipients :
    ¬ (parseTo otherAuthorTo sampleBuild.Email false ":".toList = some [] →
        (sampleExec (samplePlugin otherAuthorTo [] [] ":".toList)).outcome
            = .returned (some .missingUserConfig)
          ∧ (sampleExec (samplePlugin otherAuthorTo [] [] ":".toList)).sent = []) := by
  intro h
  have h1 := (h (by decide)).1
  revert h1
  decide

/-- C4, amended: with both channel credentials present, `Exec` fails with the
missing-recipient error exactly when `Config.To` is empty, and then no template is
rendered, no message is built and the transport is not called; when the resolved
recipient list is non-empty this error is not raised. -/
theorem Exec_missing_user_config {F E T : Type} (zeroF : F)
    (parseFloat : GoString → Option F) (render : GoString → Plugin F → Except E GoString)
    (multicast : List GoString → List (Message F) → Option T) (p : Plugin F)
    (hcred : p.Config.ChannelToken ≠ [] ∧ p.Config.ChannelSecret ≠ []) :
    (p.Config.To = [] →
        p.Exec zeroF parseFloat render multicast
          = ⟨.returned (some .missingUserConfig), [], []⟩)
      ∧ (p.Config.To ≠ [] →
          (p.Exec zeroF parseFloat render multicast).outcome
            ≠ .returned (some .missingUserConfig))
      ∧ (∀ ids, parseTo p.Config.To p.Build.Email p.Config.MatchEmail p.Config.Delimiter
            = some ids → ids ≠ [] →
          (p.Exec zeroF parseFloat render multicast).outcome
            ≠ .returned (some .missingUserConfig)) := by
  refine ⟨?_, Exec_outcome_ne_missingUserConfig zeroF parseFloat render multicast p, ?_⟩
  · intro hto
    simp [Plugin.Exec, Plugin.Bot, hcred.1, hcred.2, hto]
  · intro ids hids hne
    apply Exec_outcome_ne_missingUserConfig
    intro hto
    rw [hto, parseTo_nil] at hids
    cases hids
    exact hne rfl

theorem Exec_missing_user_config_witness :
    ((samplePlugin [] [] [] ":".toList).Config.ChannelToken ≠ []
        ∧ (samplePlugin [] [] [] ":".toList).Config.ChannelSecret ≠ []) ∧
      sampleExec (samplePlugin [] [] [] ":".toList)
        = ⟨.returned (some .missingUserConfig), [], []⟩ :=
  ⟨by decide,
    (Exec_missing_user_config () parseFloatNone renderSame multicastOk
      (samplePlugin [] [] [] ":".toList) (by decide)).1 rfl⟩

/-! ## The converters -/

/-- C5, the defect: the entry `","` is not empty after trimming, and with the delimiter
`","` it has no normalized field; `convertImage` panics on it, `convertVideo` returns a
single element, and `Exec` panics on such an image or video entry. -/
theorem convert_image_video_no_field :
    Trim ",".toList ' ' ≠ [] ∧ ",".toList ≠ [] ∧
      convertImage ",".toList ",".toList = none ∧
      convertVideo ",".toList ",".toList = [defaultPreviewImageURL] ∧
      (sampleExec (samplePlugin ["u1".toList] [",".toList] [] ",".toList)).outcome = .panic ∧
      (sampleExec (samplePlugin ["u1".toList] [] [",".toList] ",".toList)).outcome = .panic := by
  decide

/-- On an entry with a normalized field `convertImage` returns at least two elements. -/
theorem convertImage_of_field (value delimiter : GoString)
    (h : trimElement (Split value delimiter) ≠ []) :
    ∃ values, convertImage value delimiter = some values ∧ 2 ≤ values.length := by
  match hfs : trimElement (Split value delimiter) with
  | [] => exact absurd hfs h
  | [u] => exact ⟨[u, u], by simp [convertImage, hfs], by simp⟩
  | u :: w :: more => exact ⟨u :: w :: more, by simp [convertImage, hfs], by simp⟩

/-- On an entry with a normalized field `convertVideo` returns at least two elements. -/
theorem convertVideo_of_field (value delimiter : GoString)
    (h : trimElement (Split value delimiter) ≠ []) :
    2 ≤ (convertVideo value delimiter).length := by
  match hfs : trimElement (Split value delimiter) with
  | [] => exact absurd hfs h
  | [u] => simp [convertVideo, hfs]
  | u :: w :: more =>
    have hlt : ¬ more.length + 1 + 1 < 2 := by omega
    simp [convertVideo, hfs, hlt]

/-- C6: with `fields = trimElement(Split(entry, delimiter))`, `convertImage` returns
`[u, u]` when `fields` is the single element `u`, and `fields` unchanged when it has two
or more elements. -/
theorem convertImage_fields (value delimiter : GoString) (fields : List GoString)
    (hfields : trimElement (Split value delimiter) = fields) :
    (∀ u, fields = [u] → convertImage value delimiter = some [u, u])
      ∧ (2 ≤ fields.length → convertImage value delimiter = some fields) := by
  subst hfields
  constructor
  · intro u hu
    simp [convertImage, hu]
  · intro h
    have hlt : ¬ (trimElement (Split value delimiter)).length < 2 := by omega
    simp [convertImage, hlt]

theorem convertImage_fields_witness :
    convertImage "url1".toList ",".toList = some ["url1".toList, "url1".toList]
      ∧ convertImage "url1,url2".toList ",".toList = some ["url1".toList, "url2".toList] :=
  ⟨(convertImage_fields "url1".toList ",".toList _ rfl).1 "url1".toList (by decide),
   ((convertImage_fields "url1,url2".toList ",".toList _ rfl).2 (by decide)).trans
     (by decide)⟩

/-- C7: with `fields = trimElement(Split(entry, delimiter))`, `convertVideo` returns
`[u, defaultPreviewImageURL]` when `fields` is the single element `u`, and `fields`
unchanged when it has two or more elements. -/
theorem convertVideo_fields (value delimiter : GoString) (fields : List GoString)
    (hfields : trimElement (Split value delimiter) = fields) :
    (∀ u, fields = [u] → convertVideo value delimiter = [u, defaultPreviewImageURL])
      ∧ (2 ≤ fields.length → convertVideo value delimiter = fields) := by
  subst hfields
  constructor
  · intro u hu
    simp [convertVideo, hu]
  · intro h
    have hlt : ¬ (trimElement (Split value delimiter)).length < 2 := by omega
    simp [convertVideo, hlt]

theorem convertVideo_fields_witness :
    convertVideo "url1".toList ",".toList = ["url1".toList, defaultPreviewImageURL]
      ∧ convertVideo "url1,url2".toList ",".toList = ["url1".toList, "url2".toList] :=
  ⟨(convertVideo_fields "url1".toList ",".toList _ rfl).1 "url1".toList (by decide),
   ((convertVideo_fields "url1,url2".toList ",".toList _ rfl).2 (by decide)).trans
     (by decide)⟩

theorem convertAudio_of_short (value delimiter : GoString)
    (h : (trimElement (Split value delimiter)).length < 2) :
    convertAudio value delimiter = (Audio.zero, true) := by
  simp [convertAudio, h]

theorem convertAudio_of_fields (value delimiter url dur : GoString) (more : List GoString)
    (h : trimElement (Split value delimiter) = url :: dur :: more) :
    convertAudio value delimiter =
      match Atoi dur with
      | none => (Audio.zero, true)
      | some duration => ({ URL := url, Duration := duration }, false) := by
  simp [convertAudio, h]

/-- C8: with `fields = trimElement(Split(entry, delimiter))`, `convertAudio` skips exactly
when `fields` has fewer than two elements or `fields[1]` is not an integer literal; when
it does not skip the audio is `{fields[0], value of fields[1]}`, whatever follows the
second field; when it skips the audio is the zero `Audio`. -/
theorem convertAudio_spec (value delimiter : GoString) (fields : List GoString)
    (hfields : trimElement (Split value delimiter) = fields) :
    ((convertAudio value delimiter).2 = true ↔
        fields.length < 2 ∨ ∃ s, fields[1]? = some s ∧ ∀ n, ¬ IsIntLiteral s n)
      ∧ ((convertAudio value delimiter).2 = false →
          ∃ url dur more n, fields = url :: dur :: more ∧ IsIntLiteral dur n ∧
            (convertAudio value delimiter).1 = { URL := url, Duration := n })
      ∧ ((convertAudio value delimiter).2 = true →
          (convertAudio value delimiter).1 = Audio.zero) := by
  match fields, hfields with
  | [], h =>
    have hs := convertAudio_of_short value delimiter (by simp [h])
    simp [hs]
  | [x], h =>
    have hs := convertAudio_of_short value delimiter (by simp [h])
    simp [hs]
  | url :: dur :: more, h =>
    have hs := convertAudio_of_fields value delimiter url dur more h
    cases hA : Atoi dur with
    | none =>
      rw [hA] at hs
      have hno : ∀ n, ¬ IsIntLiteral dur n := by
        intro n hn
        rw [← Atoi_eq_some_iff, hA] at hn
        cases hn
      refine ⟨?_, ?_, ?_⟩
      · rw [hs]
        exact ⟨fun _ => Or.inr ⟨dur, by simp, hno⟩, fun _ => rfl⟩
      · intro hskip
        rw [hs] at hskip
        cases hskip
      · intro _
        rw [hs]
    | some n =>
      rw [hA] at hs
      have hlit : IsIntLiteral dur n := (Atoi_eq_some_iff dur n).1 hA
      refine ⟨?_, ?_, ?_⟩
      · simp only [hs, reduceCtorEq, false_iff, not_or]
        refine ⟨by simp, ?_⟩
        rintro ⟨s, hs1, hs2⟩
        have : s = dur := by simpa using hs1.symm
        subst this
        exact hs2 n hlit
      · intro _
        exact ⟨url, dur, more, n, rfl, hlit, by rw [hs]⟩
      · intro hskip
        rw [hs] at hskip
        cases hskip

theorem convertAudio_spec_witness :
    convertAudio "url,5".toList ",".toList = ({ URL := "url".toList, Duration := 5 }, false)
      ∧ (convertAudio "url,abc".toList ",".toList).2 = true
      ∧ (convertAudio "url".toList ",".toList).2 = true := by
  refine ⟨by decide, ?_, ?_⟩
  · refine (convertAudio_spec "url,abc".toList ",".toList _ rfl).1.2 (Or.inr ?_)
    refine ⟨"abc".toList, by decide, ?_⟩
    intro n hn
    have hA : Atoi "abc".toList = none := by decide
    rw [← Atoi_eq_some_iff, hA] at hn
    cases hn
  · exact (convertAudio_spec "url".toList ",".toList _ rfl).1.2 (Or.inl (by decide))

theorem convertLocation_of_short {F : Type} (zeroF : F) (parseFloat : GoString → Option F)
    (value delimiter : GoString) (h : (trimElement (Split value delimiter)).length < 4) :
    convertLocation zeroF parseFloat value delimiter = (Location.zero zeroF, true) := by
  simp [convertLocation, h]

theorem convertLocation_of_fields {F : Type} (zeroF : F) (parseFloat : GoString → Option F)
    (value delimiter title address lat lon : GoString) (more : List GoString)
    (h : trimElement (Split value delimiter) = title :: address :: lat :: lon :: more) :
    convertLocation zeroF parseFloat value delimiter =
      match parseFloat lat with
      | none => (Location.zero zeroF, true)
      | some latitude =>
        match parseFloat lon with
        | none => (Location.zero zeroF, true)
        | some longitude =>
          ({ Title := title, Address := address,
             Latitude := latitude, Longitude := longitude }, false) := by
  simp [convertLocation, h]

/-- C9: with `fields = trimElement(Split(entry, delimiter))` and `parseFloat` any partial
function, `convertLocation` skips exactly when `fields` has fewer than four elements or
`fields[2]` or `fields[3]` fails to parse; when it does not skip the location is
`{fields[0], fields[1], parse(fields[2]), parse(fields[3])}`; when it skips the location is
the zero `Location`. -/
theorem convertLocation_spec {F : Type} (zeroF : F) (parseFloat : GoString → Option F)
    (value delimiter : GoString) (fields : List GoString)
    (hfields : trimElement (Split value delimiter) = fields) :
    ((convertLocation zeroF parseFloat value delimiter).2 = true ↔
        fields.length < 4 ∨ (∃ s, fields[2]? = some s ∧ parseFloat s = none)
          ∨ (∃ s, fields[3]? = some s ∧ parseFloat s = none))
      ∧ ((convertLocation zeroF parseFloat value delimiter).2 = false →
          ∃ title address lat lon more latitude longitude,
            fields = title :: address :: lat :: lon :: more ∧
            parseFloat lat = some latitude ∧ parseFloat lon = some longitude ∧
            (convertLocation zeroF parseFloat value delimiter).1 =
              { Title := title, Address := address,
                Latitude := latitude, Longitude := longitude })
      ∧ ((convertLocation zeroF parseFloat value delimiter).2 = true →
          (convertLocation zeroF parseFloat value delimiter).1 = Location.zero zeroF) := by
  match fields, hfields with
  | [], h =>
    have hs := convertLocation_of_short zeroF parseFloat value delimiter (by simp [h])
    simp [hs]
  | [_], h =>
    have hs := convertLocation_of_short zeroF parseFloat value delimiter (by simp [h])
    simp [hs]
  | [_, _], h =>
    have hs := convertLocation_of_short zeroF parseFloat value delimiter (by simp [h])
    simp [hs]
  | [_, _, _], h =>
    have hs := convertLocation_of_short zeroF parseFloat value delimiter (by simp [h])
    simp [hs]
  | title :: address :: lat :: lon :: more, h =>
    have hs := convertLocation_of_fields zeroF parseFloat value delimiter title address
      lat lon more h
    cases hlat : parseFloat lat with
    | none =>
      rw [hlat] at hs
      simp [hs, hlat]
    | some latitude =>
      cases hlon : parseFloat lon with
      | none =>
        rw [hlat, hlon] at hs
        simp [hs, hlon]
      | some longitude =>
        rw [hlat, hlon] at hs
        refine ⟨?_, ?_, ?_⟩
        · simp [hs, hlat, hlon]
        · intro _
          exact ⟨title, address, lat, lon, more, latitude, longitude, rfl, hlat, hlon,
            by rw [hs]⟩
        · intro hskip
          rw [hs] at hskip
          cases hskip

theorem convertLocation_spec_witness :
    convertLocation "0".toList parseFloatSample "T,A,1.5,2.5".toList ",".toList
        = ({ Title := "T".toList, Address := "A".toList, Latitude := "1.5".toList,
             Longitude := "2.5".toList }, false)
      ∧ (convertLocation "0".toList parseFloatSample "T,A,1.5".toList ",".toList).2 = true
      ∧ (convertLocation "0".toList parseFloatSample "T,A,x,2.5".toList ",".toList).2
          = true := by
  refine ⟨by decide, ?_, ?_⟩
  · exact (convertLocation_spec "0".toList parseFloatSample "T,A,1.5".toList ",".toList
      _ rfl).1.2 (Or.inl (by decide))
  · exact (convertLocation_spec "0".toList parseFloatSample "T,A,x,2.5".toList ",".toList
      _ rfl).1.2 (Or.inr (Or.inl ⟨"x".toList, by decide, by decide⟩))

/-- C10: with `fields = trimElement(Split(entry, delimiter))`, `convertSticker` returns
the skip flag with an empty list exactly when `fields` has fewer than two elements, and
otherwise returns `fields` unchanged without the skip flag. -/
theorem convertSticker_spec (value delimiter : GoString) (fields : List GoString)
    (hfields : trimElement (Split value delimiter) = fields) :
    (convertSticker value delimiter = ([], true) ↔ fields.length < 2)
      ∧ ((convertSticker value delimiter).2 = true ↔ fields.length < 2)
      ∧ (¬ fields.length < 2 → convertSticker value delimiter = (fields, false)) := by
  subst hfields
  by_cases h : (trimElement (Split value delimiter)).length < 2
  · simp [convertSticker, h]
  · simp [convertSticker, h]

theorem convertSticker_spec_witness :
    convertSticker "1,2".toList ",".toList = (["1".toList, "2".toList], false)
      ∧ convertSticker "1".toList ",".toList = ([], true) :=
  ⟨((convertSticker_spec "1,2".toList ",".toList _ rfl).2.2 (by decide)).trans (by decide),
   (convertSticker_spec "1".toList ",".toList _ rfl).1.2 (by decide)⟩

/-! ## `strings.Trim` -/

theorem trimLeftByte_eq_dropWhile (s : GoString) (c : Char) :
    trimLeftByte s c = s.dropWhile fun x => x == c := by
  induction s with
  | nil => rfl
  | cons x xs ih =>
    by_cases h : x = c
    · simp [trimLeftByte, h, ih]
    · simp [trimLeftByte, h]

theorem trimRightByte_eq_rdropWhile (s : GoString) (c : Char) :
    trimRightByte s c = s.rdropWhile fun x => x == c := by
  simp [trimRightByte, List.rdropWhile, trimLeftByte_eq_dropWhile]

theorem Trim_eq (s : GoString) (c : Char) :
    Trim s c = (s.rdropWhile fun x => x == c).dropWhile fun x => x == c := by
  simp [Trim, trimLeftByte_eq_dropWhile, trimRightByte_eq_rdropWhile]

theorem rdropWhile_cons_of_neg {α : Type} (p : α → Bool) (x : α) (xs : List α)
    (h : p x = false) : (x :: xs).rdropWhile p = x :: xs.rdropWhile p := by
  induction xs using List.reverseRecOn with
  | nil => simp [List.rdropWhile_singleton, h]
  | append_singleton l y ih =>
    rw [← List.cons_append, List.rdropWhile_concat, List.rdropWhile_concat]
    by_cases hy : p y = true
    · simp [hy, ih]
    · simp [hy]

theorem rdropWhile_cons_of_pos {α : Type} (p : α → Bool) (x : α) (xs : List α)
    (h : p x = true) :
    (x :: xs).rdropWhile p
      = if (xs.rdropWhile p).isEmpty then [] else x :: xs.rdropWhile p := by
  induction xs using List.reverseRecOn with
  | nil => simp [List.rdropWhile_singleton, h]
  | append_singleton l y ih =>
    rw [← List.cons_append, List.rdropWhile_concat, List.rdropWhile_concat]
    by_cases hy : p y = true
    · simp [hy, ih]
    · simp [hy]

/-- Dropping on the left and dropping on the right commute. -/
theorem dropWhile_rdropWhile_comm {α : Type} (p : α → Bool) (l : List α) :
    (l.rdropWhile p).dropWhile p = (l.dropWhile p).rdropWhile p := by
  induction l with
  | nil => simp
  | cons x xs ih =>
    by_cases h : p x = true
    · rw [rdropWhile_cons_of_pos p x xs h, List.dropWhile_cons_of_pos h, ← ih]
      by_cases hr : xs.rdropWhile p = []
      · simp [hr]
      · have hr' : (xs.rdropWhile p).isEmpty = false := by simpa using hr
        simp [hr', h]
    · have h' : p x = false := by simpa using h
      rw [rdropWhile_cons_of_neg p x xs h', List.dropWhile_cons_of_neg h,
        List.dropWhile_cons_of_neg h, rdropWhile_cons_of_neg p x xs h']

theorem Trim_eq_stripSpaces (s : GoString) : Trim s ' ' = stripSpaces s := by
  rw [Trim_eq, stripSpaces, dropWhile_rdropWhile_comm]

theorem head?_dropWhile_ne {α : Type} (p : α → Bool) (l : List α) (x : α)
    (h : (l.dropWhile p).head? = some x) : p x = false := by
  induction l with
  | nil => simp at h
  | cons y ys ih =>
    by_cases hy : p y = true
    · rw [List.dropWhile_cons_of_pos hy] at h
      exact ih h
    · rw [List.dropWhile_cons_of_neg hy] at h
      simp at h
      subst h
      simpa using hy

theorem getLast?_rdropWhile_ne {α : Type} (p : α → Bool) (l : List α) (x : α)
    (h : (l.rdropWhile p).getLast? = some x) : p x = false := by
  rw [List.rdropWhile, List.getLast?_reverse] at h
  exact head?_dropWhile_ne p _ x h

theorem getLast?_dropWhile {α : Type} (p : α → Bool) (l : List α) (x : α)
    (h : (l.dropWhile p).getLast? = some x) : l.getLast? = some x := by
  obtain ⟨t, ht⟩ := List.dropWhile_suffix (l := l) p
  have hne : l.dropWhile p ≠ [] := by
    intro h0
    rw [h0] at h
    simp at h
  rw [← ht, List.getLast?_append_of_ne_nil _ hne]
  exact h

/-- The result of `Trim` does not start with the cut character. -/
theorem Trim_head? (s : GoString) (c : Char) : (Trim s c).head? ≠ some c := by
  intro h
  rw [Trim_eq] at h
  have := head?_dropWhile_ne _ _ _ h
  simp at this

/-- The result of `Trim` does not end with the cut character. -/
theorem Trim_getLast? (s : GoString) (c : Char) : (Trim s c).getLast? ≠ some c := by
  intro h
  rw [Trim_eq] at h
  have := getLast?_rdropWhile_ne _ _ _ (getLast?_dropWhile _ _ _ h)
  simp at this

theorem dropWhile_eq_self_of_head? {α : Type} (p : α → Bool) (l : List α)
    (h : ∀ x, l.head? = some x → p x = false) : l.dropWhile p = l := by
  cases l with
  | nil => rfl
  | cons y ys =>
    have hy : ¬ p y = true := by simpa using h y rfl
    exact List.dropWhile_cons_of_neg hy

theorem rdropWhile_eq_self_of_getLast? {α : Type} (p : α → Bool) (l : List α)
    (h : ∀ x, l.getLast? = some x → p x = false) : l.rdropWhile p = l := by
  rw [List.rdropWhile, dropWhile_eq_self_of_head? p l.reverse, List.reverse_reverse]
  intro x hx
  rw [List.head?_reverse] at hx
  exact h x hx

/-- A string that neither starts nor ends with the cut character is left as it is. -/
theorem Trim_of_trimmed (s : GoString) (c : Char) (hh : s.head? ≠ some c)
    (hl : s.getLast? ≠ some c) : Trim s c = s := by
  rw [Trim_eq, rdropWhile_eq_self_of_getLast?, dropWhile_eq_self_of_head?]
  · intro x hx
    by_cases hxc : x = c
    · subst hxc; exact absurd hx hh
    · simpa using hxc
  · intro x hx
    by_cases hxc : x = c
    · subst hxc; exact absurd hx hl
    · simpa using hxc

theorem Trim_idem (s : GoString) (c : Char) : Trim (Trim s c) c = Trim s c :=
  Trim_of_trimmed _ c (Trim_head? s c) (Trim_getLast? s c)

theorem rdropWhile_append_replicate (l : GoString) (c : Char) (b : Nat) :
    (l ++ List.replicate b c).rdropWhile (fun x => x == c)
      = l.rdropWhile fun x => x == c := by
  induction b with
  | zero => simp
  | succ n ih =>
    rw [List.replicate_succ', ← List.append_assoc, List.rdropWhile_concat_pos _ _ _ (by simp),
      ih]

/-- Padding with the cut character on both sides is removed by `Trim`. -/
theorem Trim_pad (f : GoString) (c : Char) (a b : Nat) (hh : f.head? ≠ some c)
    (hl : f.getLast? ≠ some c) :
    Trim (List.replicate a c ++ f ++ List.replicate b c) c = f := by
  rw [Trim_eq, rdropWhile_append_replicate]
  by_cases hf : f = []
  · subst hf
    have : (List.replicate a c ++ []).rdropWhile (fun x => x == c) = [] := by
      rw [List.rdropWhile_eq_nil_iff]
      intro x hx
      simp [List.mem_replicate] at hx
      simp [hx.2]
    rw [this]
    rfl
  · rw [rdropWhile_eq_self_of_getLast?, List.dropWhile_append_of_pos,
      dropWhile_eq_self_of_head?]
    · intro x hx
      by_cases hxc : x = c
      · subst hxc; exact absurd hx hh
      · simpa using hxc
    · intro x hx
      simp [List.mem_replicate] at hx
      simp [hx.2]
    · intro x hx
      rw [List.getLast?_append_of_ne_nil _ hf] at hx
      by_cases hxc : x = c
      · subst hxc; exact absurd hx hl
      · simpa using hxc

/-! ## `strings.Index`, `strings.Count` and `strings.Split` -/

theorem HasPrefix_iff (s p : GoString) : HasPrefix s p = true ↔ p <+: s := by
  induction s generalizing p with
  | nil =>
    cases p with
    | nil => simp [HasPrefix]
    | cons q qs => simp [HasPrefix]
  | cons c cs ih =>
    cases p with
    | nil => simp [HasPrefix]
    | cons q qs =>
      by_cases h : c = q
      · subst h
        simp [HasPrefix, ih, List.cons_prefix_cons]
      · have h' : ¬ q = c := fun e => h e.symm
        simp [HasPrefix, h, h', List.cons_prefix_cons]

/-- When `Index` finds the separator at `m`, the string splits there, and no occurrence
starts before `m`. -/
theorem Index_some (s sep : GoString) (m : Nat) (h : Index s sep = some m) :
    ∃ a b, s = a ++ sep ++ b ∧ a.length = m ∧
      ∀ a' b', s = a' ++ sep ++ b' → m ≤ a'.length := by
  induction s generalizing m with
  | nil =>
    unfold Index at h
    split at h
    · rename_i hp
      have hsep : sep = [] := by simpa using (HasPrefix_iff [] sep).1 hp
      have hm : m = 0 := by simpa using h.symm
      exact ⟨[], [], by simp [hsep], by simp [hm], fun _ _ _ => by omega⟩
    · simp at h
  | cons c cs ih =>
    unfold Index at h
    split at h
    · rename_i hp
      obtain ⟨b, hb⟩ := (HasPrefix_iff _ _).1 hp
      have hm : m = 0 := by simpa using h.symm
      exact ⟨[], b, by simp [hb], by simp [hm], fun _ _ _ => by omega⟩
    · rename_i hp
      cases hi : Index cs sep with
      | none => simp [hi] at h
      | some i =>
        simp only [hi, Option.some.injEq] at h
        obtain ⟨a, b, hs, hlen, hmin⟩ := ih i hi
        refine ⟨c :: a, b, by simp [hs], by simp [hlen, h.symm], ?_⟩
        intro a' b' hs'
        cases a' with
        | nil =>
          exfalso
          apply hp
          exact (HasPrefix_iff _ _).2 ⟨b', by simpa using hs'.symm⟩
        | cons x xs =>
          have hcs : cs = xs ++ sep ++ b' := by
            simp only [List.cons_append, List.cons.injEq] at hs'
            exact hs'.2
          have := hmin xs b' hcs
          simp only [List.length_cons]
          omega

/-- When `Index` finds nothing, the separator does not occur. -/
theorem Index_none (s sep : GoString) (h : Index s sep = none) : ¬ sep <:+: s := by
  induction s with
  | nil =>
    unfold Index at h
    split at h
    · simp at h
    · rename_i hp
      rintro ⟨a, b, hab⟩
      apply hp
      have ha : a = [] := by
        cases a with
        | nil => rfl
        | cons x xs => simp at hab
      subst ha
      exact (HasPrefix_iff _ _).2 ⟨b, by simpa using hab⟩
  | cons c cs ih =>
    unfold Index at h
    split at h
    · simp at h
    · rename_i hp
      cases hi : Index cs sep with
      | some i => simp [hi] at h
      | none =>
        rintro ⟨a, b, hab⟩
        cases a with
        | nil => exact hp ((HasPrefix_iff _ _).2 ⟨b, by simpa using hab⟩)
        | cons x xs =>
          apply ih hi
          refine ⟨xs, b, ?_⟩
          simp only [List.cons_append, List.cons.injEq] at hab
          exact hab.2

theorem Index_nil_of_ne (sep : GoString) (h : sep ≠ []) : Index [] sep = none := by
  cases sep with
  | nil => exact absurd rfl h
  | cons q qs => simp [Index, HasPrefix]

/-- With enough fuel the loop of `Count` does not depend on the fuel. -/
theorem countLoop_fuel (sep : GoString) (hsep : sep ≠ []) (fuel₁ fuel₂ : Nat) (s : GoString)
    (h₁ : s.length ≤ fuel₁) (h₂ : s.length ≤ fuel₂) :
    countLoop fuel₁ s sep = countLoop fuel₂ s sep := by
  induction fuel₁ generalizing fuel₂ s with
  | zero =>
    have hs : s = [] := by simpa using h₁
    subst hs
    cases fuel₂ with
    | zero => rfl
    | succ j => simp [countLoop, Index_nil_of_ne sep hsep]
  | succ k ih =>
    cases fuel₂ with
    | zero =>
      have hs : s = [] := by simpa using h₂
      subst hs
      simp [countLoop, Index_nil_of_ne sep hsep]
    | succ j =>
      unfold countLoop
      cases hi : Index s sep with
      | none => rfl
      | some i =>
        simp only
        have hpos : 0 < sep.length := List.length_pos.2 hsep
        obtain ⟨a, b, hs, hlen, _⟩ := Index_some s sep i hi
        have hl : s.length = i + sep.length + b.length := by
          rw [hs]; simp [hlen]; omega
        have hd : (s.drop (i + sep.length)).length = b.length := by
          rw [List.length_drop, hl]; omega
        rw [ih j (s.drop (i + sep.length)) (by omega) (by omega)]

/-- The recursion equation of `Count` for a non-empty separator. -/
theorem Count_eq (s sep : GoString) (hsep : sep ≠ []) :
    Count s sep =
      match Index s sep with
      | none => 0
      | some i => Count (s.drop (i + sep.length)) sep + 1 := by
  have hlen : ¬ sep.length = 0 := by simpa using hsep
  simp only [Count, hlen, if_false]
  cases s with
  | nil => simp [countLoop, Index_nil_of_ne sep hsep]
  | cons c cs =>
    simp only [List.length_cons, countLoop]
    cases hi : Index (c :: cs) sep with
    | none => rfl
    | some i =>
      simp only
      have hpos : 0 < sep.length := List.length_pos.2 hsep
      rw [countLoop_fuel sep hsep cs.length _ _ (by simp; omega) (le_refl _)]

/-- The recursion equation of `Split` for a non-empty separator: the text before the first
occurrence of the separator, then the split of what follows it. -/
theorem Split_eq (s sep : GoString) (hsep : sep ≠ []) :
    Split s sep =
      match Index s sep with
      | none => [s]
      | some m => s.take m :: Split (s.drop (m + sep.length)) sep := by
  have hlen : ¬ sep.length = 0 := by simpa using hsep
  simp only [Split, hlen, if_false]
  rw [Count_eq s sep hsep]
  cases hi : Index s sep with
  | none => simp [genSplitLoop]
  | some m => simp [genSplitLoop, hi]

theorem Split_of_Index (s sep a b : GoString) (hsep : sep ≠ []) (m : Nat)
    (hi : Index s sep = some m) (hs : s = a ++ sep ++ b) (hlen : a.length = m) :
    Split s sep = a :: Split b sep := by
  rw [Split_eq s sep hsep, hi]
  simp only
  subst hs
  subst hlen
  have h1 : (a ++ sep ++ b).take a.length = a := by
    rw [List.append_assoc, List.take_left']
    rfl
  have h2 : (a ++ sep ++ b).drop (a.length + sep.length) = b := by
    rw [← List.length_append, List.drop_left']
    rfl
  rw [h1, h2]

/-- No piece returned by `Split` contains the (non-empty) separator. -/
theorem not_infix_of_mem_Split (sep : GoString) (hsep : sep ≠ []) (s piece : GoString)
    (h : piece ∈ Split s sep) : ¬ sep <:+: piece := by
  obtain ⟨n, hn⟩ : ∃ n, s.length = n := ⟨_, rfl⟩
  induction n using Nat.strong_induction_on generalizing s with
  | _ n ih =>
    rw [Split_eq s sep hsep] at h
    cases hi : Index s sep with
    | none =>
      simp only [hi, List.mem_singleton] at h
      subst h
      exact Index_none _ _ hi
    | some m =>
      simp only [hi, List.mem_cons] at h
      obtain ⟨a, b, hs, hlen, hmin⟩ := Index_some s sep m hi
      have hpos : 0 < sep.length := List.length_pos.2 hsep
      have ht : s.take m = a := by
        rw [hs, ← hlen, List.append_assoc, List.take_left']
        rfl
      have hd : s.drop (m + sep.length) = b := by
        rw [hs, ← hlen, ← List.length_append, List.drop_left']
        rfl
      rcases h with h | h
      · rw [h, ht]
        rintro ⟨a₁, b₁, hab⟩
        have := hmin a₁ (b₁ ++ sep ++ b) (by rw [hs, ← hab]; simp)
        have hl : a.length = a₁.length + sep.length + b₁.length := by
          rw [← hab]; simp; omega
        omega
      · rw [hd] at h
        refine ih b.length ?_ b h rfl
        rw [← hn, hs]
        simp
        omega

/-- A string in which the separator does not occur is split into itself. -/
theorem Split_of_no_occurrence (s sep : GoString) (hsep : sep ≠ []) (h : ¬ sep <:+: s) :
    Split s sep = [s] := by
  rw [Split_eq s sep hsep]
  cases hi : Index s sep with
  | none => rfl
  | some m =>
    obtain ⟨a, b, hs, _, _⟩ := Index_some s sep m hi
    exact absurd ⟨a, b, hs.symm⟩ h

/-- The first piece of `Split` is the text before the first occurrence of the separator. -/
theorem Split_head (s sep : GoString) (hsep : sep ≠ []) :
    ∃ rest, Split s sep = textBeforeDelimiter s sep :: rest := by
  rw [Split_eq s sep hsep, textBeforeDelimiter]
  cases hi : Index s sep with
  | none => exact ⟨[], rfl⟩
  | some m => exact ⟨_, rfl⟩

theorem Trim_substring (s : GoString) (c : Char) : Trim s c <:+: s := by
  rw [Trim_eq]
  exact (List.dropWhile_suffix _).isInfix.trans (List.rdropWhile_prefix _ _).isInfix

theorem mem_trimElement (keys : List GoString) (e : GoString) :
    e ∈ trimElement keys ↔ e ≠ [] ∧ ∃ v ∈ keys, Trim v ' ' = e := by
  rw [trimElement_eq]
  simp only [List.mem_filter, List.mem_map, decide_eq_true_eq]
  constructor
  · rintro ⟨⟨v, hv, rfl⟩, hne⟩
    exact ⟨hne, v, hv, rfl⟩
  · rintro ⟨hne, v, hv, rfl⟩
    exact ⟨⟨v, hv, rfl⟩, hne⟩

/-- Every element of `trimElement` is non-empty and neither starts nor ends with a
space. -/
theorem trimmed_of_mem_trimElement (keys : List GoString) (e : GoString)
    (h : e ∈ trimElement keys) : e ≠ [] ∧ e.head? ≠ some ' ' ∧ e.getLast? ≠ some ' ' := by
  obtain ⟨hne, v, _, rfl⟩ := (mem_trimElement keys e).1 h
  exact ⟨hne, Trim_head? v ' ', Trim_getLast? v ' '⟩

/-- A list of non-empty strings without leading or trailing spaces is left as it is. -/
theorem trimElement_of_trimmed (keys : List GoString)
    (h : ∀ e ∈ keys, e ≠ [] ∧ e.head? ≠ some ' ' ∧ e.getLast? ≠ some ' ') :
    trimElement keys = keys := by
  rw [trimElement_eq]
  induction keys with
  | nil => rfl
  | cons k ks ih =>
    obtain ⟨hne, hh, hl⟩ := h k (List.mem_cons_self _ _)
    have hk : Trim k ' ' = k := Trim_of_trimmed k ' ' hh hl
    simp only [List.map_cons, hk]
    rw [List.filter_cons_of_pos (by simpa using hne),
      ih (fun e he => h e (List.mem_cons_of_mem _ he))]

/-- C11: `trimElement` strips the leading and trailing spaces of each element and drops
the elements that became empty, keeping the order; no element of the result is empty or
starts or ends with a space, and the result is not longer than the input. -/
theorem trimElement_spec (xs : List GoString) :
    trimElement xs = (xs.map stripSpaces).filter (fun v => decide (v ≠ []))
      ∧ (∀ e ∈ trimElement xs, e ≠ [] ∧ e.head? ≠ some ' ' ∧ e.getLast? ≠ some ' ')
      ∧ (trimElement xs).length ≤ xs.length := by
  refine ⟨?_, trimmed_of_mem_trimElement xs, ?_⟩
  · rw [trimElement_eq]
    congr 1
    exact List.map_congr_left fun v _ => Trim_eq_stripSpaces v
  · rw [trimElement_eq]
    exact (List.length_filter_le _ _).trans (by simp)

/-- C12: `trimElement` is idempotent, and for a non-empty delimiter every field of
`trimElement(Split(e, d))` is split and normalized into itself alone. -/
theorem trimElement_fixed_point :
    (∀ xs : List GoString, trimElement (trimElement xs) = trimElement xs)
      ∧ (∀ e d : GoString, d ≠ [] → ∀ f ∈ trimElement (Split e d),
          trimElement (Split f d) = [f]) := by
  constructor
  · intro xs
    exact trimElement_of_trimmed _ (trimmed_of_mem_trimElement xs)
  · intro e d hd f hf
    have htr := trimmed_of_mem_trimElement _ f hf
    obtain ⟨_, piece, hpiece, rfl⟩ := (mem_trimElement _ f).1 hf
    have hno : ¬ d <:+: Trim piece ' ' := fun hin =>
      not_infix_of_mem_Split d hd e piece hpiece (hin.trans (Trim_substring piece ' '))
    rw [Split_of_no_occurrence _ d hd hno]
    exact trimElement_of_trimmed _ (by simpa using htr)

theorem trimElement_fixed_point_witness :
    trimElement (Split "b".toList ",".toList) = ["b".toList] :=
  trimElement_fixed_point.2 "a, b ,c".toList ",".toList (by decide) "b".toList (by decide)

theorem Index_singleton_none (d : Char) (s : GoString) (h : d ∉ s) : Index s [d] = none := by
  induction s with
  | nil => simp [Index, HasPrefix]
  | cons c cs ih =>
    have hc : ¬ c = d := fun e => h (by simp [e])
    have hcs : d ∉ cs := fun e => h (List.mem_cons_of_mem _ e)
    simp [Index, HasPrefix, hc, ih hcs]

theorem Index_singleton_some (d : Char) (a b : GoString) (h : d ∉ a) :
    Index (a ++ d :: b) [d] = some a.length := by
  induction a with
  | nil => simp [Index, HasPrefix]
  | cons c cs ih =>
    have hc : ¬ c = d := fun e => h (by simp [e])
    have hcs : d ∉ cs := fun e => h (List.mem_cons_of_mem _ e)
    simp [Index, HasPrefix, hc, ih hcs]

theorem Split_singleton_append (d : Char) (a b : GoString) (h : d ∉ a) :
    Split (a ++ d :: b) [d] = a :: Split b [d] :=
  Split_of_Index _ [d] a b (by simp) a.length (Index_singleton_some d a b h) (by simp) rfl

theorem Split_singleton_of_not_mem (d : Char) (a : GoString) (h : d ∉ a) :
    Split a [d] = [a] := by
  rw [Split_eq a [d] (by simp), Index_singleton_none d a h]

/-- Splitting on a character the join of strings that do not contain it gives them
back. -/
theorem Split_intercalate (d : Char) (ps : List GoString) (hne : ps ≠ [])
    (h : ∀ p ∈ ps, d ∉ p) : Split ([d].intercalate ps) [d] = ps := by
  induction ps with
  | nil => exact absurd rfl hne
  | cons p ps ih =>
    cases ps with
    | nil =>
      simpa [List.intercalate] using
        Split_singleton_of_not_mem d p (h p (List.mem_cons_self _ _))
    | cons q qs =>
      have hp : d ∉ p := h p (List.mem_cons_self _ _)
      have hrec := ih (by simp) (fun x hx => h x (List.mem_cons_of_mem _ hx))
      have hj : [d].intercalate (p :: q :: qs) = p ++ d :: [d].intercalate (q :: qs) := by
        simp [List.intercalate, List.intersperse]
      rw [hj, Split_singleton_append d p _ hp, hrec]

/-- C13: for a delimiter character other than the space, and non-empty fields without
leading or trailing space that do not contain the delimiter, splitting the join of the
fields, each padded with spaces on both sides, gives the fields back. -/
theorem split_join_padded (d : Char) (hd : d ≠ ' ') (fs : List (Nat × GoString × Nat))
    (hne : fs ≠ [])
    (hf : ∀ x ∈ fs, x.2.1 ≠ [] ∧ x.2.1.head? ≠ some ' ' ∧ x.2.1.getLast? ≠ some ' '
      ∧ d ∉ x.2.1) :
    trimElement (Split ([d].intercalate (fs.map padField)) [d])
      = fs.map fun x => x.2.1 := by
  have hpad : ∀ p ∈ fs.map padField, d ∉ p := by
    intro p hp
    obtain ⟨x, hx, rfl⟩ := List.mem_map.1 hp
    have := (hf x hx).2.2.2
    simp only [padField, List.mem_append, List.mem_replicate, not_or, not_and]
    exact ⟨⟨fun _ => hd, this⟩, fun _ => hd⟩
  rw [Split_intercalate d _ (by simpa using hne) hpad, trimElement_eq, List.map_map]
  have hmap : fs.map ((fun v => Trim v ' ') ∘ padField) = fs.map fun x => x.2.1 := by
    apply List.map_congr_left
    intro x hx
    obtain ⟨_, hh, hl, _⟩ := hf x hx
    exact Trim_pad x.2.1 ' ' x.1 x.2.2 hh hl
  rw [hmap, List.filter_eq_self]
  intro e he
  obtain ⟨x, hx, rfl⟩ := List.mem_map.1 he
  simpa using (hf x hx).1

theorem split_join_padded_witness :
    trimElement (Split "a, b ,c".toList ",".toList)
      = ["a".toList, "b".toList, "c".toList] :=
  split_join_padded ',' (by decide)
    [(0, "a".toList, 0), (1, "b".toList, 1), (0, "c".toList, 0)] (by decide)
    (by decide)

/-! ## The loops of `Exec` -/

section ExecLoops

variable {F E T : Type}

/-- When no template fails, the render loop renders them all and appends their texts. -/
theorem renderLoop_ok (render : GoString → Plugin F → Except E GoString) (p : Plugin F)
    (templates : List GoString) (messages : List (Message F)) (rendered : List GoString)
    (h : firstRenderError render p templates = none) :
    renderLoop render p templates messages rendered
      = (rendered ++ templates, .ok (messages ++ templates.filterMap (textEntry render p))) := by
  induction templates generalizing messages rendered with
  | nil => simp [renderLoop]
  | cons value rest ih =>
    unfold firstRenderError at h
    rw [List.findSome?_cons] at h
    cases hr : render value p with
    | error err => simp [hr] at h
    | ok txt =>
      simp only [hr] at h
      rw [renderLoop, hr]
      simp only
      rw [ih _ _ h]
      simp [textEntry, hr]

/-- The render loop stops at the first template on which the renderer fails. -/
theorem renderLoop_error (render : GoString → Plugin F → Except E GoString) (p : Plugin F)
    (pre : List GoString) (value : GoString) (post : List GoString) (err : E)
    (messages : List (Message F)) (rendered : List GoString)
    (hpre : ∀ x ∈ pre, ∃ txt, render x p = .ok txt) (hval : render value p = .error err) :
    renderLoop render p (pre ++ value :: post) messages rendered
      = (rendered ++ pre ++ [value], .error err) := by
  induction pre generalizing messages rendered with
  | nil => simp [renderLoop, hval]
  | cons x xs ih =>
    obtain ⟨txt, htxt⟩ := hpre x (List.mem_cons_self _ _)
    rw [List.cons_append, renderLoop, htxt]
    simp only
    rw [ih _ _ (fun y hy => hpre y (List.mem_cons_of_mem _ hy))]
    simp

/-- A list with a failing template splits at the first one. -/
theorem exists_first_render_error (render : GoString → Plugin F → Except E GoString)
    (p : Plugin F) (templates : List GoString)
    (h : ∃ t ∈ templates, ∃ err, render t p = .error err) :
    ∃ pre value post err, templates = pre ++ value :: post ∧
      (∀ x ∈ pre, ∃ txt, render x p = .ok txt) ∧ render value p = .error err := by
  induction templates with
  | nil =>
    obtain ⟨t, ht, _⟩ := h
    simp at ht
  | cons x xs ih =>
    cases hx : render x p with
    | error err => exact ⟨[], x, xs, err, rfl, by simp, hx⟩
    | ok txt =>
      obtain ⟨t, ht, err, herr⟩ := h
      have htx : t ∈ xs := by
        rcases List.mem_cons.1 ht with rfl | h'
        · rw [hx] at herr; cases herr
        · exact h'
      obtain ⟨pre, value, post, err', hsplit, hpre, hval⟩ := ih ⟨t, htx, err, herr⟩
      refine ⟨x :: pre, value, post, err', by simp [hsplit], ?_, hval⟩
      intro y hy
      rcases List.mem_cons.1 hy with rfl | h'
      · exact ⟨txt, hx⟩
      · exact hpre y h'

theorem firstRenderError_none_iff (render : GoString → Plugin F → Except E GoString)
    (p : Plugin F) (templates : List GoString) :
    firstRenderError render p templates = none
      ↔ ∀ t ∈ templates, ∃ txt, render t p = .ok txt := by
  unfold firstRenderError
  rw [List.findSome?_eq_none_iff]
  constructor
  · intro h t ht
    have := h t ht
    cases hr : render t p with
    | error err => simp [hr] at this
    | ok txt => exact ⟨txt, rfl⟩
  · intro h t ht
    obtain ⟨txt, htxt⟩ := h t ht
    simp [htxt]

/-- The image loop on entries that each give an image message. -/
theorem imageLoop_eq (delimiter : GoString) (entries : List GoString)
    (messages : List (Message F))
    (h : ∀ v ∈ entries, (imageEntry (F := F) delimiter v).isSome) :
    imageLoop delimiter entries messages
      = some (messages ++ entries.filterMap (imageEntry delimiter)) := by
  induction entries generalizing messages with
  | nil => simp [imageLoop]
  | cons value rest ih =>
    have hv := h value (List.mem_cons_self _ _)
    have hrest := fun v hv => h v (List.mem_cons_of_mem value hv)
    unfold imageEntry at hv
    rw [imageLoop]
    cases hc : convertImage value delimiter with
    | none => simp [hc] at hv
    | some values =>
      match values, hc with
      | [], hc => simp [hc] at hv
      | [_], hc => simp [hc] at hv
      | url :: preview :: more, hc =>
        simp only [List.getElem?_cons_zero, List.getElem?_cons_succ]
        rw [ih _ hrest, List.filterMap_cons]
        simp [imageEntry, hc]

/-- The video loop on entries that each give a video message. -/
theorem videoLoop_eq (delimiter : GoString) (entries : List GoString)
    (messages : List (Message F))
    (h : ∀ v ∈ entries, (videoEntry (F := F) delimiter v).isSome) :
    videoLoop delimiter entries messages
      = some (messages ++ entries.filterMap (videoEntry delimiter)) := by
  induction entries generalizing messages with
  | nil => simp [videoLoop]
  | cons value rest ih =>
    have hv := h value (List.mem_cons_self _ _)
    have hrest := fun v hv => h v (List.mem_cons_of_mem value hv)
    unfold videoEntry at hv
    rw [videoLoop]
    match hc : convertVideo value delimiter with
    | [] => simp [hc] at hv
    | [_] => simp [hc] at hv
    | url :: preview :: more =>
      simp only [List.getElem?_cons_zero, List.getElem?_cons_succ]
      rw [ih _ hrest, List.filterMap_cons]
      simp [videoEntry, hc]

/-- The audio loop appends the audio messages of the entries not skipped. -/
theorem audioLoop_eq (delimiter : GoString) (entries : List GoString)
    (messages : List (Message F)) :
    audioLoop delimiter entries messages
      = messages ++ entries.filterMap (audioEntry delimiter) := by
  induction entries generalizing messages with
  | nil => simp [audioLoop]
  | cons value rest ih =>
    rw [audioLoop, List.filterMap_cons]
    match hc : convertAudio value delimiter with
    | (a, true) => simp [audioEntry, hc, ih]
    | (a, false) => simp [audioEntry, hc, ih]

/-- The sticker loop appends the sticker messages of the entries not skipped; it does
not panic. -/
theorem stickerLoop_eq (delimiter : GoString) (entries : List GoString)
    (messages : List (Message F)) :
    stickerLoop delimiter entries messages
      = some (messages ++ entries.filterMap (stickerEntry delimiter)) := by
  induction entries generalizing messages with
  | nil => simp [stickerLoop]
  | cons value rest ih =>
    rw [stickerLoop, List.filterMap_cons]
    by_cases hlen : (trimElement (Split value delimiter)).length < 2
    · have hc : convertSticker value delimiter = ([], true) := by simp [convertSticker, hlen]
      simp [stickerEntry, hc, ih]
    · have hc : convertSticker value delimiter
          = (trimElement (Split value delimiter), false) := by simp [convertSticker, hlen]
      match hfs : trimElement (Split value delimiter) with
      | [] => simp [hfs] at hlen
      | [_] => simp [hfs] at hlen
      | a :: b :: more =>
        rw [hfs] at hc
        simp [stickerEntry, hc, ih]

/-- The location loop appends the location messages of the entries not skipped. -/
theorem locationLoop_eq (zeroF : F) (parseFloat : GoString → Option F)
    (delimiter : GoString) (entries : List GoString) (messages : List (Message F)) :
    locationLoop zeroF parseFloat delimiter entries messages
      = messages ++ entries.filterMap (locationEntry zeroF parseFloat delimiter) := by
  induction entries generalizing messages with
  | nil => simp [locationLoop]
  | cons value rest ih =>
    rw [locationLoop, List.filterMap_cons]
    match hc : convertLocation zeroF parseFloat value delimiter with
    | (a, true) => simp [locationEntry, hc, ih]
    | (a, false) => simp [locationEntry, hc, ih]

end ExecLoops

/-! ## `Exec` as a whole -/

section ExecWhole

variable {F E T : Type}

theorem imageEntry_isSome_of_field (delimiter value : GoString)
    (h : trimElement (Split value delimiter) ≠ []) :
    (imageEntry (F := F) delimiter value).isSome := by
  obtain ⟨values, hc, hlen⟩ := convertImage_of_field value delimiter h
  match values, hc, hlen with
  | url :: preview :: more, hc, _ => simp [imageEntry, hc]

theorem videoEntry_isSome_of_field (delimiter value : GoString)
    (h : trimElement (Split value delimiter) ≠ []) :
    (videoEntry (F := F) delimiter value).isSome := by
  have hlen := convertVideo_of_field value delimiter h
  match hc : convertVideo value delimiter with
  | [] => simp [hc] at hlen
  | [_] => simp [hc] at hlen
  | url :: preview :: more => simp [videoEntry, hc]

theorem Bot_ok (p : Plugin F)
    (hcred : p.Config.ChannelToken ≠ [] ∧ p.Config.ChannelSecret ≠ []) :
    p.Bot E = .ok () := by
  simp [Plugin.Bot, hcred.1, hcred.2]

/-- With credentials and a non-empty `Config.To`, `Exec` returns the error of the first
template on which the renderer fails, having rendered the templates up to that one and
sent nothing. -/
theorem Exec_of_render_error (zeroF : F) (parseFloat : GoString → Option F)
    (render : GoString → Plugin F → Except E GoString)
    (multicast : List GoString → List (Message F) → Option T) (p : Plugin F)
    (hcred : p.Config.ChannelToken ≠ [] ∧ p.Config.ChannelSecret ≠ [])
    (hto : p.Config.To ≠ [])
    (pre : List GoString) (value : GoString) (post : List GoString) (err : E)
    (hsplit : messageTemplates p = pre ++ value :: post)
    (hpre : ∀ x ∈ pre, ∃ txt, render x p = .ok txt) (hval : render value p = .error err) :
    p.Exec zeroF parseFloat render multicast
      = ⟨.returned (some (.render err)), pre ++ [value], []⟩ := by
  have hlen : ¬ p.Config.To.length = 0 := by simpa using hto
  have hr := renderLoop_error render p pre value post err ([] : List (Message F)) [] hpre hval
  rw [← hsplit] at hr
  unfold messageTemplates at hr
  unfold Plugin.Exec
  simp only [Bot_ok p hcred, hlen, if_false, hr, List.nil_append]

/-- With credentials, a non-empty `Config.To`, templates that all render, and image and
video entries that each give a message, `Exec` renders every template and assembles the
messages; it then panics when the recipients do not resolve, and otherwise makes one
`Multicast` call with the resolved recipients and the assembled messages and returns
`nil`. -/
theorem Exec_assembled (zeroF : F) (parseFloat : GoString → Option F)
    (render : GoString → Plugin F → Except E GoString)
    (multicast : List GoString → List (Message F) → Option T) (p : Plugin F)
    (hcred : p.Config.ChannelToken ≠ [] ∧ p.Config.ChannelSecret ≠ [])
    (hto : p.Config.To ≠ [])
    (hrender : firstRenderError render p (messageTemplates p) = none)
    (himage : ∀ v ∈ trimElement p.Config.Image,
      (imageEntry (F := F) p.Config.Delimiter v).isSome)
    (hvideo : ∀ v ∈ trimElement p.Config.Video,
      (videoEntry (F := F) p.Config.Delimiter v).isSome) :
    p.Exec zeroF parseFloat render multicast =
      match parseTo p.Config.To p.Build.Email p.Config.MatchEmail p.Config.Delimiter with
      | none => ⟨.panic, messageTemplates p, []⟩
      | some ids =>
        ⟨.returned none, messageTemplates p,
          [(ids, assembledMessages zeroF parseFloat render p)]⟩ := by
  have hlen : ¬ p.Config.To.length = 0 := by simpa using hto
  have hr := renderLoop_ok render p (messageTemplates p) [] [] hrender
  unfold messageTemplates at hr
  unfold Plugin.Exec
  simp only [Bot_ok p hcred, hlen, if_false, hr, List.nil_append,
    imageLoop_eq _ _ _ himage, videoLoop_eq _ _ _ hvideo, audioLoop_eq, stickerLoop_eq,
    locationLoop_eq]
  cases parseTo p.Config.To p.Build.Email p.Config.MatchEmail p.Config.Delimiter with
  | none => simp [messageTemplates]
  | some ids =>
    simp only
    split <;> simp [assembledMessages, messageTemplates]

theorem length_filterMap_of_isSome {α β : Type} (f : α → Option β) (l : List α)
    (h : ∀ x ∈ l, (f x).isSome) : (l.filterMap f).length = l.length := by
  induction l with
  | nil => rfl
  | cons x xs ih =>
    have hx := h x (List.mem_cons_self _ _)
    obtain ⟨y, hy⟩ := Option.isSome_iff_exists.1 hx
    rw [List.filterMap_cons, hy]
    simp [ih (fun z hz => h z (List.mem_cons_of_mem _ hz))]

theorem textEntry_isSome_of_ok (render : GoString → Plugin F → Except E GoString)
    (p : Plugin F) (value : GoString) (h : ∃ txt, render value p = .ok txt) :
    (textEntry render p value).isSome := by
  obtain ⟨txt, htxt⟩ := h
  simp [textEntry, htxt]

end ExecWhole

/-! ## The assembled message sequence -/

/-- The message sequence of `Exec` where nothing panics: with credentials, a non-empty
`Config.To`, templates that all render, and image and video entries that all have a
normalized field, whatever `Exec` passes to the transport is one text per normalized
template, one image per normalized image entry, one video per normalized video entry, then
the audio, sticker and location messages of the entries their converters do not skip, each
group in configuration order; and `Exec` makes that one call, returning `nil`, whenever
the recipients resolve. -/
theorem Exec_message_sequence {F E T : Type} (zeroF : F) (parseFloat : GoString → Option F)
    (render : GoString → Plugin F → Except E GoString)
    (multicast : List GoString → List (Message F) → Option T) (p : Plugin F)
    (hcred : p.Config.ChannelToken ≠ [] ∧ p.Config.ChannelSecret ≠ [])
    (hto : p.Config.To ≠ [])
    (hrender : ∀ t ∈ messageTemplates p, ∃ txt, render t p = .ok txt)
    (himage : ∀ v ∈ trimElement p.Config.Image,
      trimElement (Split v p.Config.Delimiter) ≠ [])
    (hvideo : ∀ v ∈ trimElement p.Config.Video,
      trimElement (Split v p.Config.Delimiter) ≠ []) :
    (∀ ids, parseTo p.Config.To p.Build.Email p.Config.MatchEmail p.Config.Delimiter
        = some ids →
      p.Exec zeroF parseFloat render multicast =
        ⟨.returned none, messageTemplates p,
          [(ids,
            (messageTemplates p).filterMap (textEntry render p)
              ++ (trimElement p.Config.Image).filterMap (imageEntry p.Config.Delimiter)
              ++ (trimElement p.Config.Video).filterMap (videoEntry p.Config.Delimiter)
              ++ (trimElement p.Config.Audio).filterMap (audioEntry p.Config.Delimiter)
              ++ (trimElement p.Config.Sticker).filterMap (stickerEntry p.Config.Delimiter)
              ++ (trimElement p.Config.Location).filterMap
                  (locationEntry zeroF parseFloat p.Config.Delimiter))]⟩)
      ∧ (∀ call ∈ (p.Exec zeroF parseFloat render multicast).sent,
          call.2 = assembledMessages zeroF parseFloat render p)
      ∧ ((messageTemplates p).filterMap (textEntry render p)).length
          = (messageTemplates p).length
      ∧ ((trimElement p.Config.Image).filterMap
            (imageEntry (F := F) p.Config.Delimiter)).length
          = (trimElement p.Config.Image).length
      ∧ ((trimElement p.Config.Video).filterMap
            (videoEntry (F := F) p.Config.Delimiter)).length
          = (trimElement p.Config.Video).length := by
  have himage' : ∀ v ∈ trimElement p.Config.Image,
      (imageEntry (F := F) p.Config.Delimiter v).isSome :=
    fun v hv => imageEntry_isSome_of_field _ _ (himage v hv)
  have hvideo' : ∀ v ∈ trimElement p.Config.Video,
      (videoEntry (F := F) p.Config.Delimiter v).isSome :=
    fun v hv => videoEntry_isSome_of_field _ _ (hvideo v hv)
  have hexec := Exec_assembled zeroF parseFloat render multicast p hcred hto
    ((firstRenderError_none_iff render p _).2 hrender) himage' hvideo'
  refine ⟨?_, ?_, ?_, ?_, ?_⟩
  · intro ids hids
    rw [hexec, hids]
    rfl
  · intro call hcall
    rw [hexec] at hcall
    cases hp : parseTo p.Config.To p.Build.Email p.Config.MatchEmail p.Config.Delimiter with
    | none => simp [hp] at hcall
    | some ids =>
      simp only [hp, List.mem_singleton] at hcall
      rw [hcall]
  · exact length_filterMap_of_isSome _ _
      (fun t ht => textEntry_isSome_of_ok render p t (hrender t ht))
  · exact length_filterMap_of_isSome _ _ himage'
  · exact length_filterMap_of_isSome _ _ hvideo'

theorem Exec_message_sequence_witness :
    (fullPlugin.Exec "0".toList parseFloatSample
        (fun value _ => (Except.ok value : Except Unit GoString))
        (fun _ _ => (none : Option Unit))).sent
      = [(["u1".toList],
          [Message.text "hello".toList, Message.image "i1".toList "i1".toList,
            Message.video "v1".toList "p1".toList, Message.audio "a".toList 5,
            Message.sticker "1".toList "2".toList,
            Message.location "T".toList "A".toList "1.5".toList "2.5".toList])] :=
  (congrArg ExecResult.sent
    ((Exec_message_sequence "0".toList parseFloatSample
        (fun value _ => (Except.ok value : Except Unit GoString))
        (fun _ _ => (none : Option Unit)) fullPlugin (by decide) (by decide)
        (fun t _ => ⟨t, rfl⟩) (by decide) (by decide)).1 ["u1".toList] (by decide))).trans
    (by decide)

/-- C14, the defect: with credentials, the non-empty recipient list `[":"]`, the default
template rendered, and the image entry `i1` and video entry `v1` each having a normalized
field for the delimiter `":"`, `Exec` assembles its messages and then panics in `parseTo`
at `idArray[0]`: no message sequence is passed to the transport. -/
theorem Exec_assembled_sequence_not_sent :
    ((samplePlugin [":".toList] ["i1".toList] ["v1".toList] ":".toList).Config.ChannelToken
          ≠ []
        ∧ (samplePlugin [":".toList] ["i1".toList] ["v1".toList]
            ":".toList).Config.ChannelSecret ≠ [])
      ∧ (samplePlugin [":".toList] ["i1".toList] ["v1".toList] ":".toList).Config.To ≠ []
      ∧ (∀ v ∈ trimElement ["i1".toList], trimElement (Split v ":".toList) ≠ [])
      ∧ (∀ v ∈ trimElement ["v1".toList], trimElement (Split v ":".toList) ≠ [])
      ∧ (sampleExec (samplePlugin [":".toList] ["i1".toList] ["v1".toList]
          ":".toList)).rendered = ["[success] <http://ci/1> (master)『fix』by a".toList]
      ∧ parseTo [":".toList] sampleBuild.Email false ":".toList = none
      ∧ (sampleExec (samplePlugin [":".toList] ["i1".toList] ["v1".toList]
          ":".toList)).outcome = .panic
      ∧ (sampleExec (samplePlugin [":".toList] ["i1".toList] ["v1".toList]
          ":".toList)).sent = [] := by
  decide

/-! ## The default message, rendering failures, the transport call and the delimiter -/

theorem Trim_cons_of_ne (x c : Char) (xs : GoString) (h : x ≠ c) :
    Trim (x :: xs) c = x :: xs.rdropWhile fun y => y == c := by
  have hx : (fun y => y == c) x = false := by simpa using h
  rw [Trim_eq, rdropWhile_cons_of_neg _ x xs hx, List.dropWhile_cons_of_neg (by simpa using h)]

/-- Without configured templates the only template is the default message, trimmed. -/
theorem messageTemplates_default {F : Type} (p : Plugin F) (hmsg : p.Config.Message = []) :
    messageTemplates p = [Trim (defaultMessage p.Build) ' '] := by
  have hd : defaultMessage p.Build = '[' :: (p.Build.Status ++ "] <".toList ++ p.Build.Link
      ++ "> (".toList ++ p.Build.Branch ++ ")『".toList ++ p.Build.Message
      ++ "』by ".toList ++ p.Build.Author) := by
    simp [defaultMessage]
  have hne : Trim (defaultMessage p.Build) ' ' ≠ [] := by
    rw [hd, Trim_cons_of_ne _ _ _ (by decide)]
    simp
  have hm : p.Message p.Repo p.Build = [defaultMessage p.Build] := rfl
  simp [messageTemplates, hmsg, hm, trimElement_eq, hne]

theorem imageEntry_not_text {F : Type} (delimiter value : GoString) (m : Message F)
    (h : imageEntry delimiter value = some m) : m.isText = false := by
  unfold imageEntry at h
  split at h
  · cases h; rfl
  · cases h

theorem videoEntry_not_text {F : Type} (delimiter value : GoString) (m : Message F)
    (h : videoEntry delimiter value = some m) : m.isText = false := by
  unfold videoEntry at h
  split at h
  · cases h; rfl
  · cases h

theorem audioEntry_not_text {F : Type} (delimiter value : GoString) (m : Message F)
    (h : audioEntry delimiter value = some m) : m.isText = false := by
  unfold audioEntry at h
  split at h
  · cases h
  · cases h; rfl

theorem stickerEntry_not_text {F : Type} (delimiter value : GoString) (m : Message F)
    (h : stickerEntry delimiter value = some m) : m.isText = false := by
  unfold stickerEntry at h
  split at h
  · cases h; rfl
  · cases h

theorem locationEntry_not_text {F : Type} (zeroF : F) (parseFloat : GoString → Option F)
    (delimiter value : GoString) (m : Message F)
    (h : locationEntry zeroF parseFloat delimiter value = some m) : m.isText = false := by
  unfold locationEntry at h
  split at h
  · cases h
  · cases h; rfl

/-- The messages assembled after the texts contain no text message. -/
theorem assembledMessages_eq_texts_append {F E : Type} (zeroF : F)
    (parseFloat : GoString → Option F) (render : GoString → Plugin F → Except E GoString)
    (p : Plugin F) :
    ∃ rest, assembledMessages zeroF parseFloat render p
        = (messageTemplates p).filterMap (textEntry render p) ++ rest
      ∧ ∀ m ∈ rest, m.isText = false := by
  refine ⟨(trimElement p.Config.Image).filterMap (imageEntry p.Config.Delimiter)
      ++ (trimElement p.Config.Video).filterMap (videoEntry p.Config.Delimiter)
      ++ (trimElement p.Config.Audio).filterMap (audioEntry p.Config.Delimiter)
      ++ (trimElement p.Config.Sticker).filterMap (stickerEntry p.Config.Delimiter)
      ++ (trimElement p.Config.Location).filterMap
          (locationEntry zeroF parseFloat p.Config.Delimiter), ?_, ?_⟩
  · simp [assembledMessages]
  · intro m hm
    simp only [List.mem_append, List.mem_filterMap] at hm
    rcases hm with (((⟨v, _, h⟩ | ⟨v, _, h⟩) | ⟨v, _, h⟩) | ⟨v, _, h⟩) | ⟨v, _, h⟩
    · exact imageEntry_not_text _ _ _ h
    · exact videoEntry_not_text _ _ _ h
    · exact audioEntry_not_text _ _ _ h
    · exact stickerEntry_not_text _ _ _ h
    · exact locationEntry_not_text _ _ _ _ _ h

/-- C15, refuted as stated: without configured templates the outcome of `Exec` depends on
the renderer; it is `nil` with a renderer that accepts the default message and the
rendering error with one that rejects it. -/
theorem Exec_outcome_depends_on_render :
    ¬ ((samplePlugin ["u1".toList] [] [] ",".toList).Exec () parseFloatNone renderSame
          multicastOk).outcome
        = ((samplePlugin ["u1".toList] [] [] ",".toList).Exec () parseFloatNone renderFail
          multicastOk).outcome := by
  decide

/-- C15, amended: without configured templates, with credentials and a non-empty
`Config.To`, the only template is the fixed format filled from the build, without its
trailing spaces, and it goes through the renderer: when the renderer rejects it `Exec`
returns that error and sends nothing; when the renderer returns `txt`, image and video
entries have a normalized field and the recipients resolve, the sequence sent starts with
the text `txt` and holds no other text message. -/
theorem Exec_default_message {F E T : Type} (zeroF : F) (parseFloat : GoString → Option F)
    (render : GoString → Plugin F → Except E GoString)
    (multicast : List GoString → List (Message F) → Option T) (p : Plugin F)
    (hcred : p.Config.ChannelToken ≠ [] ∧ p.Config.ChannelSecret ≠ [])
    (hto : p.Config.To ≠ []) (hmsg : p.Config.Message = []) :
    messageTemplates p = [Trim (defaultMessage p.Build) ' ']
      ∧ (∀ err, render (Trim (defaultMessage p.Build) ' ') p = .error err →
          p.Exec zeroF parseFloat render multicast
            = ⟨.returned (some (.render err)), [Trim (defaultMessage p.Build) ' '], []⟩)
      ∧ (∀ txt, render (Trim (defaultMessage p.Build) ' ') p = .ok txt →
          (∀ v ∈ trimElement p.Config.Image,
            trimElement (Split v p.Config.Delimiter) ≠ []) →
          (∀ v ∈ trimElement p.Config.Video,
            trimElement (Split v p.Config.Delimiter) ≠ []) →
          ∀ ids, parseTo p.Config.To p.Build.Email p.Config.MatchEmail p.Config.Delimiter
              = some ids →
            ∃ rest, p.Exec zeroF parseFloat render multicast
                = ⟨.returned none, [Trim (defaultMessage p.Build) ' '],
                    [(ids, Message.text txt :: rest)]⟩
              ∧ ∀ m ∈ rest, m.isText = false) := by
  have htpl := messageTemplates_default p hmsg
  refine ⟨htpl, ?_, ?_⟩
  · intro err herr
    have := Exec_of_render_error zeroF parseFloat render multicast p hcred hto []
      (Trim (defaultMessage p.Build) ' ') [] err (by simpa using htpl) (by simp) herr
    simpa using this
  · intro txt htxt himage hvideo ids hids
    have hrender : firstRenderError render p (messageTemplates p) = none := by
      rw [firstRenderError_none_iff, htpl]
      intro t ht
      rw [List.mem_singleton] at ht
      exact ⟨txt, ht ▸ htxt⟩
    have hexec := Exec_assembled zeroF parseFloat render multicast p hcred hto hrender
      (fun v hv => imageEntry_isSome_of_field _ _ (himage v hv))
      (fun v hv => videoEntry_isSome_of_field _ _ (hvideo v hv))
    rw [hids] at hexec
    obtain ⟨rest, hrest, hno⟩ := assembledMessages_eq_texts_append zeroF parseFloat render p
    refine ⟨rest, ?_, hno⟩
    rw [hexec, hrest, htpl]
    simp [textEntry, htxt]

theorem Exec_default_message_witness :
    ((samplePlugin ["u1".toList] [] [] ",".toList).Config.ChannelToken ≠ []
        ∧ (samplePlugin ["u1".toList] [] [] ",".toList).Config.ChannelSecret ≠ [])
      ∧ (samplePlugin ["u1".toList] [] [] ",".toList).Config.To ≠ []
      ∧ (samplePlugin ["u1".toList] [] [] ",".toList).Config.Message = []
      ∧ messageTemplates (samplePlugin ["u1".toList] [] [] ",".toList)
          = ["[success] <http://ci/1> (master)『fix』by a".toList]
      ∧ (samplePlugin ["u1".toList] [] [] ",".toList).Exec () parseFloatNone renderFail
          multicastOk
          = ⟨.returned (some (.render ())), [Trim (defaultMessage sampleBuild) ' '], []⟩ :=
  ⟨by decide, by decide, by decide,
    (Exec_default_message () parseFloatNone renderFail multicastOk
      (samplePlugin ["u1".toList] [] [] ",".toList) (by decide) (by decide) rfl).1.trans
      (by decide),
    (Exec_default_message () parseFloatNone renderFail multicastOk
      (samplePlugin ["u1".toList] [] [] ",".toList) (by decide) (by decide) rfl).2.1 () rfl⟩

/-- C16: with credentials and a non-empty `Config.To`, when the renderer fails on some
normalized template, `Exec` stops at the first such template, returns its rendering error
and does not call the transport, whatever the other lists hold. -/
theorem Exec_render_fail_fast {F E T : Type} (zeroF : F) (parseFloat : GoString → Option F)
    (render : GoString → Plugin F → Except E GoString)
    (multicast : List GoString → List (Message F) → Option T) (p : Plugin F)
    (hcred : p.Config.ChannelToken ≠ [] ∧ p.Config.ChannelSecret ≠ [])
    (hto : p.Config.To ≠ [])
    (hfail : ∃ t ∈ messageTemplates p, ∃ err, render t p = .error err) :
    ∃ pre value post err, messageTemplates p = pre ++ value :: post ∧
      (∀ x ∈ pre, ∃ txt, render x p = .ok txt) ∧ render value p = .error err ∧
      p.Exec zeroF parseFloat render multicast
        = ⟨.returned (some (.render err)), pre ++ [value], []⟩ := by
  obtain ⟨pre, value, post, err, hsplit, hpre, hval⟩ :=
    exists_first_render_error render p _ hfail
  exact ⟨pre, value, post, err, hsplit, hpre, hval,
    Exec_of_render_error zeroF parseFloat render multicast p hcred hto pre value post err
      hsplit hpre hval⟩

theorem Exec_render_fail_fast_witness :
    ∃ pre value post err,
      messageTemplates (samplePlugin ["u1".toList] [",".toList] [",".toList] ",".toList)
        = pre ++ value :: post ∧
      (∀ x ∈ pre, ∃ txt, renderFail x
        (samplePlugin ["u1".toList] [",".toList] [",".toList] ",".toList) = .ok txt) ∧
      renderFail value (samplePlugin ["u1".toList] [",".toList] [",".toList] ",".toList)
        = .error err ∧
      (samplePlugin ["u1".toList] [",".toList] [",".toList] ",".toList).Exec ()
          parseFloatNone renderFail multicastOk
        = ⟨.returned (some (.render err)), pre ++ [value], []⟩ :=
  Exec_render_fail_fast () parseFloatNone renderFail multicastOk
    (samplePlugin ["u1".toList] [",".toList] [",".toList] ",".toList) (by decide) (by decide)
    ⟨"[success] <http://ci/1> (master)『fix』by a".toList, by decide, (), rfl⟩

/-- C17, the defect: with credentials, a non-empty `Config.To` and templates that render,
`Exec` panics without calling the transport on the image entry `","` with the delimiter
`","`, and on the recipient entry `":"` with the delimiter `":"`. -/
theorem Exec_panics_before_multicast :
    ((sampleExec (samplePlugin ["u1".toList] [",".toList] [] ",".toList)).outcome = .panic
        ∧ (sampleExec (samplePlugin ["u1".toList] [",".toList] [] ",".toList)).rendered
          = ["[success] <http://ci/1> (master)『fix』by a".toList]
        ∧ (sampleExec (samplePlugin ["u1".toList] [",".toList] [] ",".toList)).sent = [])
      ∧ ((sampleExec (samplePlugin [":".toList] [] [] ":".toList)).outcome = .panic
        ∧ (sampleExec (samplePlugin [":".toList] [] [] ":".toList)).rendered
          = ["[success] <http://ci/1> (master)『fix』by a".toList]
        ∧ (sampleExec (samplePlugin [":".toList] [] [] ":".toList)).sent = []) := by
  decide

/-- An entry of `trimElement`, split into its characters, has a normalized field. -/
theorem fields_explode_ne_nil (keys : List GoString) (v : GoString)
    (hv : v ∈ trimElement keys) : trimElement (Split v []) ≠ [] := by
  obtain ⟨hne, hh, _⟩ := trimmed_of_mem_trimElement keys v hv
  cases v with
  | nil => exact absurd rfl hne
  | cons c cs =>
    have hc : c ≠ ' ' := by
      intro h
      apply hh
      simp [h]
    have hmem : [c] ∈ trimElement (Split (c :: cs) []) := by
      rw [mem_trimElement]
      refine ⟨by simp, [c], by simp [Split, explode], ?_⟩
      apply Trim_of_trimmed
      · simpa using hc
      · simpa using hc
    intro h0
    rw [h0] at hmem
    simp at hmem

/-- C18, refuted as stated: with an empty delimiter, credentials and the recipient `u`,
`Exec` returns `nil` after a `Multicast` call; it neither returns an error nor refrains
from sending. -/
theorem Exec_accepts_empty_delimiter :
    (samplePlugin ["u".toList] [] [] []).Config.Delimiter = [] ∧
      ¬ (∃ err, (sampleExec (samplePlugin ["u".toList] [] [] [])).outcome
            = .returned (some err))
      ∧ ¬ (sampleExec (samplePlugin ["u".toList] [] [] [])).sent = [] := by
  refine ⟨rfl, ?_, by decide⟩
  rintro ⟨err, herr⟩
  have hnil : (sampleExec (samplePlugin ["u".toList] [] [] [])).outcome = .returned none := by
    decide
  rw [hnil] at herr
  cases herr

/-- C18, amended: `Exec` has no check of the delimiter.  With an empty delimiter,
credentials, a non-empty `Config.To` and templates that all render, every entry is split
into its characters, nothing panics, and `Exec` returns `nil` after one `Multicast` call
with the resolved recipients and the assembled messages. -/
theorem Exec_empty_delimiter {F E T : Type} (zeroF : F) (parseFloat : GoString → Option F)
    (render : GoString → Plugin F → Except E GoString)
    (multicast : List GoString → List (Message F) → Option T) (p : Plugin F)
    (hdelim : p.Config.Delimiter = [])
    (hcred : p.Config.ChannelToken ≠ [] ∧ p.Config.ChannelSecret ≠ [])
    (hto : p.Config.To ≠ [])
    (hrender : ∀ t ∈ messageTemplates p, ∃ txt, render t p = .ok txt) :
    ∃ ids, parseTo p.Config.To p.Build.Email p.Config.MatchEmail p.Config.Delimiter
        = some ids ∧
      p.Exec zeroF parseFloat render multicast
        = ⟨.returned none, messageTemplates p,
            [(ids, assembledMessages zeroF parseFloat render p)]⟩ := by
  have hids := parseTo_eq p.Config.To p.Build.Email p.Config.MatchEmail p.Config.Delimiter
    (by rw [hdelim]; exact fun v hv => fields_explode_ne_nil _ v hv)
  have hexec := Exec_assembled zeroF parseFloat render multicast p hcred hto
    ((firstRenderError_none_iff render p _).2 hrender)
    (fun v hv => imageEntry_isSome_of_field _ _
      (by rw [hdelim]; exact fields_explode_ne_nil _ v hv))
    (fun v hv => videoEntry_isSome_of_field _ _
      (by rw [hdelim]; exact fields_explode_ne_nil _ v hv))
  rw [hids] at hexec
  exact ⟨_, hids, hexec⟩

theorem Exec_empty_delimiter_witness :
    ∃ ids, parseTo (samplePlugin ["u".toList] ["ab".toList] [] []).Config.To
        (samplePlugin ["u".toList] ["ab".toList] [] []).Build.Email
        (samplePlugin ["u".toList] ["ab".toList] [] []).Config.MatchEmail
        (samplePlugin ["u".toList] ["ab".toList] [] []).Config.Delimiter = some ids ∧
      (samplePlugin ["u".toList] ["ab".toList] [] []).Exec () parseFloatNone renderSame
          multicastOk
        = ⟨.returned none, messageTemplates (samplePlugin ["u".toList] ["ab".toList] [] []),
            [(ids, assembledMessages () parseFloatNone renderSame
              (samplePlugin ["u".toList] ["ab".toList] [] []))]⟩ :=
  Exec_empty_delimiter () parseFloatNone renderSame multicastOk
    (samplePlugin ["u".toList] ["ab".toList] [] []) rfl (by decide) (by decide)
    (fun t _ => ⟨t, rfl⟩)

/-- C19, the defect: on the recipient entry `":"` with the delimiter `":"` no normalized
field is left and `parseTo` panics at `idArray[0]`, whatever `matchEmail` is. -/
theorem parseTo_panics_on_delimiter_entry :
    ":".toList ≠ [] ∧ trimElement (Split ":".toList ":".toList) = []
      ∧ parseTo [":".toList] "a@x.com".toList false ":".toList = none
      ∧ parseTo [":".toList] "a@x.com".toList true ":".toList = none
      ∧ parseTo ["u1".toList, " : ".toList] "a@x.com".toList false ":".toList = none := by
  decide

/-! ## The identifiers `parseTo` returns -/

theorem trimElement_cons (x : GoString) (xs : List GoString) :
    trimElement (x :: xs)
      = if Trim x ' ' = [] then trimElement xs else Trim x ' ' :: trimElement xs := by
  rw [trimElement_eq, trimElement_eq]
  by_cases h : Trim x ' ' = []
  · simp [h]
  · simp [h, List.filter_cons]

/-- When the loop of `parseTo` returns, every entry had a normalized field. -/
theorem fields_ne_nil_of_parseToLoop (authorEmail delimiter : GoString)
    (entries emails ids : List GoString) (attachEmail : Bool)
    (r : List GoString × List GoString × Bool)
    (h : parseToLoop authorEmail delimiter entries emails ids attachEmail = some r) :
    ∀ v ∈ entries, trimElement (Split v delimiter) ≠ [] := by
  induction entries generalizing emails ids attachEmail with
  | nil => simp
  | cons value rest ih =>
    intro v hv
    match hfs : trimElement (Split value delimiter) with
    | [] =>
      rw [parseToLoop_nil_fields _ _ _ _ _ _ _ hfs] at h
      cases h
    | [id] =>
      rw [parseToLoop_one_field _ _ _ id _ _ _ _ hfs] at h
      rcases List.mem_cons.1 hv with rfl | hv'
      · simp [hfs]
      · exact ih _ _ _ h v hv'
    | id :: email :: more =>
      rcases List.mem_cons.1 hv with rfl | hv'
      · simp [hfs]
      · by_cases he : email = authorEmail
        · subst he
          rw [parseToLoop_author_email _ _ _ id more _ _ _ _ hfs] at h
          exact ih _ _ _ h v hv'
        · rw [parseToLoop_other_email _ _ _ id email more _ _ _ _ hfs he] at h
          exact ih _ _ _ h v hv'

/-- When `parseTo` returns, every entry had a normalized field. -/
theorem fields_ne_nil_of_parseTo (to_ : List GoString) (authorEmail : GoString)
    (matchEmail : Bool) (delimiter : GoString) (ids : List GoString)
    (h : parseTo to_ authorEmail matchEmail delimiter = some ids) :
    ∀ v ∈ trimElement to_, trimElement (Split v delimiter) ≠ [] := by
  unfold parseTo at h
  cases hl : parseToLoop authorEmail delimiter (trimElement to_) [] [] true with
  | none => simp [hl] at h
  | some r => exact fields_ne_nil_of_parseToLoop _ _ _ _ _ _ r hl

/-- Every identifier `parseTo` returns is the first normalized field of an entry. -/
theorem first_field_of_mem_parseTo (to_ : List GoString) (authorEmail : GoString)
    (matchEmail : Bool) (delimiter : GoString) (ids : List GoString)
    (h : parseTo to_ authorEmail matchEmail delimiter = some ids) (id : GoString)
    (hid : id ∈ ids) :
    ∃ v ∈ trimElement to_, ∃ more, trimElement (Split v delimiter) = id :: more := by
  have hf := fields_ne_nil_of_parseTo to_ authorEmail matchEmail delimiter ids h
  rw [parseTo_eq to_ authorEmail matchEmail delimiter hf] at h
  have hmem : id ∈ plainIds delimiter (trimElement to_)
      ∨ id ∈ matchedIds authorEmail delimiter (trimElement to_) := by
    have hids := (Option.some.inj h).symm
    split at hids
    · rw [hids] at hid
      exact Or.inr hid
    · rw [hids] at hid
      exact List.mem_append.1 hid
  rcases hmem with hp | hm
  · obtain ⟨v, hv, hfs⟩ := (mem_plainIds _ _ _).1 hp
    exact ⟨v, hv, [], hfs⟩
  · obtain ⟨v, hv, more, hfs⟩ := (mem_matchedIds _ _ _ _).1 hm
    exact ⟨v, hv, _, hfs⟩

/-- C20, refuted as stated: for the entry `":a@x.com"` with the delimiter `":"` the text
before the first delimiter is empty, and `parseTo` returns `a@x.com`, the text after
it. -/
theorem parseTo_returns_text_after_delimiter :
    ¬ (∀ ids, parseTo [":a@x.com".toList] "b@x.com".toList false ":".toList = some ids →
        ∀ id ∈ ids, id ≠ [] ∧ id.head? ≠ some ' ' ∧ id.getLast? ≠ some ' ' ∧
          ∃ entry ∈ [":a@x.com".toList],
            id = Trim (textBeforeDelimiter entry ":".toList) ' ') := by
  intro h
  obtain ⟨_, _, _, entry, hentry, heq⟩ :=
    h ["a@x.com".toList] (by decide) "a@x.com".toList (by simp)
  rw [List.mem_singleton] at hentry
  subst hentry
  revert heq
  decide

/-- C20, amended: when `parseTo` returns, each identifier is non-empty, has no leading or
trailing space, and is the first normalized field of some entry of `to`, trimmed: the
first piece between delimiters that is not blank, which is the text before the first
delimiter only when that text is not blank. -/
theorem parseTo_ids_are_first_fields (to_ : List GoString) (authorEmail : GoString)
    (matchEmail : Bool) (delimiter : GoString) (ids : List GoString)
    (h : parseTo to_ authorEmail matchEmail delimiter = some ids) :
    ∀ id ∈ ids, id ≠ [] ∧ id.head? ≠ some ' ' ∧ id.getLast? ≠ some ' ' ∧
      ∃ entry ∈ to_,
        (trimElement (Split (Trim entry ' ') delimiter)).head? = some id ∧
        (delimiter ≠ [] →
          Trim (textBeforeDelimiter (Trim entry ' ') delimiter) ' ' ≠ [] →
          id = Trim (textBeforeDelimiter (Trim entry ' ') delimiter) ' ') := by
  intro id hid
  obtain ⟨v, hv, more, hfs⟩ :=
    first_field_of_mem_parseTo to_ authorEmail matchEmail delimiter ids h id hid
  have hidmem : id ∈ trimElement (Split v delimiter) := by simp [hfs]
  obtain ⟨hne, hh, hl⟩ := trimmed_of_mem_trimElement _ id hidmem
  obtain ⟨_, entry, hentry, rfl⟩ := (mem_trimElement to_ v).1 hv
  refine ⟨hne, hh, hl, entry, hentry, by simp [hfs], ?_⟩
  intro hd htb
  obtain ⟨rest, hsplit⟩ := Split_head (Trim entry ' ') delimiter hd
  rw [hsplit, trimElement_cons, if_neg htb] at hfs
  exact ((List.cons.inj hfs).1).symm

theorem parseTo_ids_are_first_fields_witness :
    parseTo [" :a@x.com".toList] "b@x.com".toList false ":".toList = some ["a@x.com".toList]
      ∧ ("a@x.com".toList ≠ [] ∧ "a@x.com".toList.head? ≠ some ' '
        ∧ "a@x.com".toList.getLast? ≠ some ' '
        ∧ ∃ entry ∈ [" :a@x.com".toList],
          (trimElement (Split (Trim entry ' ') ":".toList)).head? = some "a@x.com".toList ∧
          (":".toList ≠ [] →
            Trim (textBeforeDelimiter (Trim entry ' ') ":".toList) ' ' ≠ [] →
            "a@x.com".toList = Trim (textBeforeDelimiter (Trim entry ' ') ":".toList) ' ')) :=
  ⟨by decide,
    parseTo_ids_are_first_fields [" :a@x.com".toList] "b@x.com".toList false ":".toList
      ["a@x.com".toList] (by decide) "a@x.com".toList (List.mem_singleton.2 rfl)⟩

end DroneLine
